import Mathlib

/-!
Verification development for `cmd/micro/micro.go`.

A shallow embedding of the input resolver `LoadInput`, of the event router
`DoEvent` and of the crash-recovery handler installed by `app.Action`,
followed by theorems about them.

Conventions of the embedding

* Go strings are Lean `String`s; a `[]byte` converted with `string(...)` is the
  same `String`.
* Go `int` is `Int`; `strconv.Atoi` is the only place where the width of `int`
  matters and its range check is explicit (`intSize`).
* Calls into collaborators (buffer constructors, `screen.TermMessage`,
  `io.ReadAll`, `Fini`, `Backup`, `HandleEvent`, ...) are recorded, in program
  order, in a trace.  What a collaborator answers is a parameter of the model.
-/

namespace Micro

/-! ## Data model -/

/-- The cursor location type `buffer.Loc`, a pair of machine integers. -/
structure Loc where
  X : Int
  Y : Int
deriving DecidableEq, Repr

/-- Modelled from the spec: the two values of `buffer.BufType` that `LoadInput`
uses: the default interactive tag and the piped-output tag. -/
inductive BufType where
  | BTDefault
  | BTStdout
deriving DecidableEq, Repr

/-- The two sentinel causes of `strconv.NumError`. -/
inductive NumErrKind where
  | ErrSyntax
  | ErrRange
deriving DecidableEq, Repr

/-- Error values that reach `LoadInput`: a `*strconv.NumError` (function name,
offending text, cause) or an error produced by a collaborator. -/
inductive Error where
  | NumError (Func : String) (Num : String) (Err : NumErrKind)
  | other (msg : String)
deriving DecidableEq, Repr

/-- Result of `buffer.NewBufferFromFileAtLoc`: a buffer or an error. -/
inductive OpenResult (β : Type) where
  | ok (buf : β)
  | err (e : Error)
deriving DecidableEq, Repr

/-- One observable call made by `LoadInput`, with what the callee answered. -/
inductive Effect (β : Type) where
  | TermMessage (text : String) (err : Error)
  | NewBufferFromFileAtLoc (path : String) (btype : BufType) (cursorLoc : Loc)
      (res : OpenResult β)
  | ReadAll (data : String) (err : Option Error)
  | NewBufferFromStringAtLoc (text : String) (path : String) (btype : BufType)
      (cursorLoc : Loc) (res : β)
deriving DecidableEq, Repr

/-- The collaborators of `LoadInput`.  Each answer may depend on everything the
call has done so far (the trace), which covers any deterministic file system
and buffer registry. -/
structure Env (β : Type) where
  /-- Value of `isatty.IsTerminal(os.Stdout.Fd())`. -/
  stdoutIsTerminal : Bool
  /-- Value of `isatty.IsTerminal(os.Stdin.Fd())`. -/
  stdinIsTerminal : Bool
  /-- The pair returned by `io.ReadAll(os.Stdin)`: bytes read and error. -/
  ReadAll : List (Effect β) → String × Option Error
  NewBufferFromFileAtLoc : List (Effect β) → String → BufType → Loc → OpenResult β
  NewBufferFromStringAtLoc : List (Effect β) → String → String → BufType → Loc → β

/-! ## `strconv.Atoi` -/

/-- Width of Go `int` on the target platform. -/
def intSize : Nat := 64

/-- Largest value of Go `int`. -/
def maxInt : Int := 2 ^ (intSize - 1) - 1

/-- Smallest value of Go `int`. -/
def minInt : Int := -(2 ^ (intSize - 1))

/-- Value of a run of decimal digits, most significant first. -/
def digitsValue (ds : List Char) : Nat :=
  ds.foldl (fun n ch => n * 10 + (ch.toNat - '0'.toNat)) 0

/-- The contract of `strconv.Atoi`: an optional sign followed by one or more
ASCII digits; `ErrSyntax` for any other text, `ErrRange` when the value does
not fit `int`. -/
def Atoi (s : String) : Except Error Int :=
  let body : Bool × List Char :=
    match s.toList with
    | '-' :: r => (true, r)
    | '+' :: r => (false, r)
    | cs => (false, cs)
  if body.2.isEmpty || !body.2.all Char.isDigit then
    .error (.NumError "Atoi" s .ErrSyntax)
  else
    let n : Int := if body.1 then -(digitsValue body.2 : Int) else (digitsValue body.2 : Int)
    if n < minInt || maxInt < n then
      .error (.NumError "Atoi" s .ErrRange)
    else
      .ok n

/-! ## The directive pattern -/

/-- The result of `flagr.FindStringSubmatch(a)` for
`flagr = ^\+(\d+)(?::(\d+))?$`: the empty slice when `a` does not match, and
otherwise the whole match followed by the two groups, the second one empty when
the optional part took no part in the match.  `\d` is an ASCII digit and `$`
is the end of the text. -/
def flagrFindStringSubmatch (a : String) : List String :=
  match a.toList with
  | '+' :: rest =>
    let g1 := rest.takeWhile Char.isDigit
    if g1.isEmpty then []
    else
      match rest.dropWhile Char.isDigit with
      | [] => [a, String.mk g1, ""]
      | ':' :: g2 =>
        if !g2.isEmpty && g2.all Char.isDigit then [a, String.mk g1, String.mk g2]
        else []
      | _ => []
  | _ => []

/-! ## `LoadInput` -/

/-- The variables the argument loop of `LoadInput` updates, with the trace. -/
structure ScanState (β : Type) where
  files : List String
  flagStartPos : Loc
  trace : List (Effect β)

/-- One iteration of `for _, a := range args` in `LoadInput`. -/
def scanStep {β : Type} (st : ScanState β) (a : String) : ScanState β :=
  let mtch := flagrFindStringSubmatch a
  if mtch.length == 3 && mtch.getD 2 "" != "" then
    match Atoi (mtch.getD 1 "") with
    | .error err => { st with trace := st.trace ++ [.TermMessage "" err] }
    | .ok line =>
      match Atoi (mtch.getD 2 "") with
      | .error err => { st with trace := st.trace ++ [.TermMessage "" err] }
      | .ok col => { st with flagStartPos := { X := col - 1, Y := line - 1 } }
  else if mtch.length == 3 && mtch.getD 2 "" == "" then
    match Atoi (mtch.getD 1 "") with
    | .error err => { st with trace := st.trace ++ [.TermMessage "" err] }
    | .ok line => { st with flagStartPos := { X := 0, Y := line - 1 } }
  else
    { st with files := st.files ++ [a] }

/-- The state before the argument loop: no file, the sentinel start position
`buffer.Loc{X: -1, Y: -1}`. -/
def scanInit (β : Type) : ScanState β :=
  { files := [], flagStartPos := { X := -1, Y := -1 }, trace := [] }

/-- The argument loop of `LoadInput` (lines 262-289). -/
def scanArgs (β : Type) (args : List String) : ScanState β :=
  args.foldl scanStep (scanInit β)

/-- What `LoadInput` returns, together with the trace of its calls. -/
structure Loaded (β : Type) where
  buffers : List β
  trace : List (Effect β)
deriving DecidableEq

/-- The loop `for i := 0; i < len(files); i++` of `LoadInput` (lines 294-302),
from the buffers and the trace accumulated so far. -/
def openFiles {β : Type} (env : Env β) (btype : BufType) (flagStartPos : Loc) :
    List String → Loaded β → Loaded β
  | [], acc => acc
  | f :: fs, acc =>
    match env.NewBufferFromFileAtLoc acc.trace f btype flagStartPos with
    | .err e =>
      openFiles env btype flagStartPos fs
        { acc with
          trace := acc.trace ++
            [.NewBufferFromFileAtLoc f btype flagStartPos (.err e), .TermMessage "" e] }
    | .ok buf =>
      openFiles env btype flagStartPos fs
        { buffers := acc.buffers ++ [buf]
          trace := acc.trace ++ [.NewBufferFromFileAtLoc f btype flagStartPos (.ok buf)] }

/-- The tag chosen at lines 257-260. -/
def outputTag {β : Type} (env : Env β) : BufType :=
  if !env.stdoutIsTerminal then .BTStdout else .BTDefault

/-- The function `LoadInput`. -/
def LoadInput {β : Type} (env : Env β) (args : List String) : Loaded β :=
  let btype := outputTag env
  let sc := scanArgs β args
  if sc.files.length > 0 then
    openFiles env btype sc.flagStartPos sc.files { buffers := [], trace := sc.trace }
  else if !env.stdinIsTerminal then
    let rd := env.ReadAll sc.trace
    let tr1 := sc.trace ++ [.ReadAll rd.1 rd.2]
    let inp : String × List (Effect β) :=
      match rd.2 with
      | some e => ("", tr1 ++ [.TermMessage "Error reading from stdin: " e])
      | none => (rd.1, tr1)
    let buf := env.NewBufferFromStringAtLoc inp.2 inp.1 "" btype sc.flagStartPos
    { buffers := [buf]
      trace := inp.2 ++ [.NewBufferFromStringAtLoc inp.1 "" btype sc.flagStartPos buf] }
  else
    let buf := env.NewBufferFromStringAtLoc sc.trace "" "" btype sc.flagStartPos
    { buffers := [buf]
      trace := sc.trace ++ [.NewBufferFromStringAtLoc "" "" btype sc.flagStartPos buf] }

/-! ## Reading a trace -/

/-- The start position a constructor call was given. -/
def Effect.startPos? {β : Type} : Effect β → Option Loc
  | .NewBufferFromFileAtLoc _ _ l _ => some l
  | .NewBufferFromStringAtLoc _ _ _ l _ => some l
  | _ => none

/-- The tag a constructor call was given. -/
def Effect.btype? {β : Type} : Effect β → Option BufType
  | .NewBufferFromFileAtLoc _ bt _ _ => some bt
  | .NewBufferFromStringAtLoc _ _ bt _ _ => some bt
  | _ => none

/-- The arguments of a call of `NewBufferFromFileAtLoc`. -/
def Effect.openCall? {β : Type} : Effect β → Option (String × BufType × Loc)
  | .NewBufferFromFileAtLoc f bt l _ => some (f, bt, l)
  | _ => none

/-- The arguments and the result of a call of `NewBufferFromStringAtLoc`. -/
def Effect.stringCall? {β : Type} : Effect β → Option (String × String × BufType × Loc × β)
  | .NewBufferFromStringAtLoc t f bt l b => some (t, f, bt, l, b)
  | _ => none

/-- The buffer a constructor call produced. -/
def Effect.buffer? {β : Type} : Effect β → Option β
  | .NewBufferFromFileAtLoc _ _ _ (.ok b) => some b
  | .NewBufferFromStringAtLoc _ _ _ _ b => some b
  | _ => none

/-- The call is a `screen.TermMessage`. -/
def Effect.isWarning {β : Type} : Effect β → Bool
  | .TermMessage _ _ => true
  | _ => false

/-- The recorded answer of `e` is what the collaborator answers after the calls
in `past`. -/
def Answered {β : Type} (env : Env β) (past : List (Effect β)) : Effect β → Prop
  | .TermMessage _ _ => True
  | .NewBufferFromFileAtLoc f bt l res => res = env.NewBufferFromFileAtLoc past f bt l
  | .ReadAll d er => (d, er) = env.ReadAll past
  | .NewBufferFromStringAtLoc t f bt l b => b = env.NewBufferFromStringAtLoc past t f bt l

/-- Every answer recorded in the trace is the collaborator's answer at that
point of the run. -/
inductive Consistent {β : Type} (env : Env β) : List (Effect β) → Prop where
  | nil : Consistent env []
  | snoc (past : List (Effect β)) (e : Effect β) :
      Consistent env past → Answered env past e → Consistent env (past ++ [e])

/-- The buffer of a successful open. -/
def OpenResult.buf? {β : Type} : OpenResult β → Option β
  | .ok b => some b
  | .err _ => none

/-- What opening the path `f` leaves in the trace when the answer is `r`: the
call, followed by a warning when it failed. -/
def openEntry {β : Type} (btype : BufType) (flagStartPos : Loc) (f : String)
    (r : OpenResult β) : List (Effect β) :=
  match r with
  | .ok b => [.NewBufferFromFileAtLoc f btype flagStartPos (.ok b)]
  | .err e => [.NewBufferFromFileAtLoc f btype flagStartPos (.err e), .TermMessage "" e]

/-- A call that, if it constructs a buffer, does so with tag `bt` at `pos`. -/
def CallUses {β : Type} (bt : BufType) (pos : Loc) (e : Effect β) : Prop :=
  (∀ l, e.startPos? = some l → l = pos) ∧ (∀ b, e.btype? = some b → b = bt)

/-! ## Concrete collaborators used to run the model -/

/-- A buffer that only remembers how it was constructed. -/
structure RecBuf where
  path : String
  text : String
  btype : BufType
  cursorLoc : Loc
deriving DecidableEq, Repr

/-- Collaborators for running the model: `missing` lists the paths whose open
fails, `stdin` is what standard input holds (`none`: reading it fails). -/
def recEnv (outTerm inTerm : Bool) (stdin : Option String) (missing : List String) :
    Env RecBuf where
  stdoutIsTerminal := outTerm
  stdinIsTerminal := inTerm
  ReadAll := fun _ =>
    match stdin with
    | some s => (s, none)
    | none => ("par", some (.other "read error"))
  NewBufferFromFileAtLoc := fun _ p bt loc =>
    if p ∈ missing then .err (.other p) else .ok ⟨p, "", bt, loc⟩
  NewBufferFromStringAtLoc := fun _ text p bt loc => ⟨p, text, bt, loc⟩


/-! ## The directive pattern and the decimal value, in the words of the documentation -/

/-- A nonempty run of ASCII decimal digits. -/
def IsDigits (ds : List Char) : Prop :=
  ds ≠ [] ∧ ∀ c ∈ ds, c.isDigit = true

/-- The token `a` reads `+L` (when `C` is `none`) or `+L:C`, where `L` and `C`
are nonempty runs of decimal digits. -/
def IsDirective (a : String) (L : List Char) (C : Option (List Char)) : Prop :=
  IsDigits L ∧
    match C with
    | none => a.toList = '+' :: L
    | some c => IsDigits c ∧ a.toList = '+' :: (L ++ ':' :: c)

/-- The token matches the pattern `+<digits>` or `+<digits>:<digits>`. -/
def MatchesPattern (a : String) : Prop :=
  ∃ L C, IsDirective a L C

/-- Positional decimal value of a digit run: each digit times the power of ten
of its place, the last character having weight `10 ^ 0`. -/
def decimalValue : List Char → Nat
  | [] => 0
  | d :: ds => (d.toNat - 48) * 10 ^ ds.length + decimalValue ds

/-- The location a directive stands for: line `L - 1`, and column `0` for `+L`
or `C - 1` for `+L:C`. -/
def directiveLoc (L : List Char) (C : Option (List Char)) : Loc :=
  { X := match C with
         | none => 0
         | some c => (decimalValue c : Int) - 1
    Y := (decimalValue L : Int) - 1 }

/-- Every digit group of the directive has a value that fits Go `int`. -/
def Converts (L : List Char) (C : Option (List Char)) : Prop :=
  (decimalValue L : Int) ≤ maxInt ∧
    match C with
    | none => True
    | some c => (decimalValue c : Int) ≤ maxInt

instance instDecidableIsDigits (ds : List Char) : Decidable (IsDigits ds) :=
  inferInstanceAs (Decidable (ds ≠ [] ∧ ∀ c ∈ ds, c.isDigit = true))

instance instDecidableIsDirective (a : String) (L : List Char) (C : Option (List Char)) :
    Decidable (IsDirective a L C) :=
  match C with
  | none => inferInstanceAs (Decidable (IsDigits L ∧ a.toList = '+' :: L))
  | some c =>
    inferInstanceAs (Decidable (IsDigits L ∧ IsDigits c ∧ a.toList = '+' :: (L ++ ':' :: c)))

instance instDecidableConverts (L : List Char) (C : Option (List Char)) :
    Decidable (Converts L C) :=
  match C with
  | none => inferInstanceAs (Decidable ((decimalValue L : Int) ≤ maxInt ∧ True))
  | some c =>
    inferInstanceAs
      (Decidable ((decimalValue L : Int) ≤ maxInt ∧ (decimalValue c : Int) ≤ maxInt))

/-! ## The event router `DoEvent` and the crash handler -/

/-- Modelled from the spec: a handle of the open-buffer registry
`buffer.OpenBuffers`, with the answer of its `Modified()` query.  `Fini`,
`Save` and `Backup` are calls on a handle; `Fini` and `Backup` of one buffer
do not change what `Modified()` answers for another. -/
structure Buffer where
  id : Nat
  modified : Bool
deriving DecidableEq, Repr

/-- The cause `Err()` of a `*tcell.EventError`: `io.EOF` or anything else. -/
inductive Cause where
  | EOF
  | other (msg : String)
deriving DecidableEq, Repr

/-- A value received from `screen.Events`: a `*tcell.EventError` or an event
of any other type (key, mouse, resize, ...). -/
inductive Event where
  | EventError (err : Cause)
  | input (code : Nat)
deriving DecidableEq, Repr

/-- A value received from `shell.Jobs`: the callback (named by a number), its
output and its arguments. -/
structure JobFunction where
  Function : Nat
  Output : String
  Args : List String
deriving DecidableEq, Repr

/-- The case of the `select` in `DoEvent` that fires, with the value received. -/
inductive Ready where
  | Jobs (f : JobFunction)
  | Autosave
  | CloseTerms
  | Events (event : Event)
  | DrawChan
  | sighup
  | sigterm
deriving DecidableEq, Repr

/-- The value `recover()` returned: a `*lua.ApiError` or any other value. -/
inductive PanicValue where
  | ApiError (msg : String)
  | other (msg : String)
deriving DecidableEq, Repr

/-- One observable action of the router or of the crash handler.  A nil
`tcell.Event` handed to `HandleEvent` is `none`. -/
inductive Act where
  | Fill
  | HideCursor
  | TabsDisplay
  | PaneDisplay (pane : Nat)
  | MainTabDisplay
  | InfoBarDisplay
  | Show
  | Lock
  | Unlock
  | JobCallback (f : JobFunction)
  | Save (b : Buffer)
  | DrawRecv
  | Fini (b : Buffer)
  | Backup (b : Buffer) (failed : Bool)
  | ScreenFini
  | Log (e : Cause)
  | Println (v : PanicValue)
  | InfoBarHandleEvent (event : Option Event)
  | TabsHandleEvent (event : Option Event)
  | Exit (code : Nat)
deriving DecidableEq, Repr

/-- The state `DoEvent` reads: the registry, whether a prompt is shown
(`action.InfoBar.HasPrompt`), the panes of the main tab, whether
`screen.Screen` is non-nil, and the number of redraw requests queued in
`screen.DrawChan()`. -/
structure Editor where
  OpenBuffers : List Buffer
  HasPrompt : Bool
  Panes : List Nat
  ScreenSet : Bool
  DrawChan : Nat
deriving DecidableEq, Repr

/-- The collaborators of the router: what each call does to the editor state,
and whether the backup of a buffer fails. -/
structure Collab where
  JobCallback : JobFunction → Editor → Editor
  Save : Buffer → Editor → Editor
  InfoBarHandleEvent : Option Event → Editor → Editor
  TabsHandleEvent : Option Event → Editor → Editor
  BackupFails : Buffer → Bool

/-- How a run of `DoEvent` or of the crash handler ends: it returns, it exits
the process, it panics, or it waits in the `select` because the case asked for
cannot fire. -/
inductive Outcome where
  | returned (st : Editor)
  | exited (code : Nat)
  | panicked (v : PanicValue)
  | blocked
deriving DecidableEq, Repr

/-- The actions of a run, in order, and how it ended. -/
structure Step where
  trace : List Act
  outcome : Outcome
deriving DecidableEq, Repr

/-- The display calls of one render pass (lines 342-350), in order. -/
def displayCalls (st : Editor) : List Act :=
  [.Fill, .HideCursor, .TabsDisplay] ++ st.Panes.map Act.PaneDisplay ++
    [.MainTabDisplay, .InfoBarDisplay, .Show]

/-- The value a call through a nil `screen.Screen` panics with. -/
def nilScreenPanic : PanicValue :=
  .other "runtime error: invalid memory address or nil pointer dereference"

/-- The render pass at the top of `DoEvent` (lines 342-350).  Its first call,
`screen.Screen.Fill`, is made without a nil check: when `screen.Screen` is nil
it panics and the answer is `none`. -/
def render (st : Editor) : Option (List Act) :=
  if st.ScreenSet then some (displayCalls st) else none

/-- The loop `for _, b := range buffer.OpenBuffers { if !b.Modified() { b.Fini() } }`. -/
def finiUnmodified : List Buffer → List Act
  | [] => []
  | b :: bs => if !b.modified then .Fini b :: finiUnmodified bs else finiUnmodified bs

/-- The loop `for _, b := range buffer.OpenBuffers { _ = b.Backup() }`. -/
def backupAll (env : Collab) : List Buffer → List Act
  | [] => []
  | b :: bs => .Backup b (env.BackupFails b) :: backupAll env bs

/-- The loop `for _, b := range buffer.OpenBuffers { _ = b.Save() }`, from the
state and the actions so far. -/
def saveAll (env : Collab) : List Buffer → Editor × List Act → Editor × List Act
  | [], acc => acc
  | b :: bs, acc => saveAll env bs (env.Save b acc.1, acc.2 ++ [.Save b])

/-- The loop `for len(screen.DrawChan()) > 0 { <-screen.DrawChan() }` when no
request arrives while it runs: from the queue length, the length left and the
receives made. -/
def drainDrawChan : Nat → Nat × List Act
  | 0 => (0, [])
  | n + 1 => ((drainDrawChan n).1, .DrawRecv :: (drainDrawChan n).2)

/-- Lines 391-418 of `DoEvent`: what follows the `select`, for the value of
the variable `event` (`none` when it is still nil). -/
def afterSelect (env : Collab) (event : Option Event) (st : Editor) (tr : List Act) : Step :=
  match event with
  | some (.EventError err) =>
    if err = .EOF then
      { trace := tr ++ [.Log err] ++ finiUnmodified st.OpenBuffers ++
          (if st.ScreenSet then [.ScreenFini] else []) ++ [.Exit 0]
        outcome := .exited 0 }
    else
      { trace := tr ++ [.Log err], outcome := .returned st }
  | _ =>
    if st.HasPrompt then
      { trace := tr ++ [.Lock, .InfoBarHandleEvent event, .Unlock]
        outcome := .returned (env.InfoBarHandleEvent event st) }
    else
      { trace := tr ++ [.Lock, .TabsHandleEvent event, .Unlock]
        outcome := .returned (env.TabsHandleEvent event st) }

/-- The function `DoEvent`, for the `select` case `ready`.  The render pass
comes first and panics on a nil screen.  A receive from an empty
`screen.DrawChan()` cannot fire: the iteration then waits in the `select`. -/
def DoEvent (env : Collab) (ready : Ready) (st : Editor) : Step :=
  match render st with
  | none => { trace := [], outcome := .panicked nilScreenPanic }
  | some tr =>
    match ready with
    | .Jobs f =>
      afterSelect env none (env.JobCallback f st) (tr ++ [.Lock, .JobCallback f, .Unlock])
    | .Autosave =>
      let sv := saveAll env st.OpenBuffers (st, tr ++ [.Lock])
      afterSelect env none sv.1 (sv.2 ++ [.Unlock])
    | .CloseTerms => afterSelect env none st tr
    | .Events event => afterSelect env (some event) st tr
    | .DrawChan =>
      match st.DrawChan with
      | 0 => { trace := tr, outcome := .blocked }
      | n + 1 =>
        let dr := drainDrawChan n
        afterSelect env none { st with DrawChan := dr.1 } (tr ++ .DrawRecv :: dr.2)
    | .sighup =>
      { trace := tr ++ finiUnmodified st.OpenBuffers ++ [.Exit 0], outcome := .exited 0 }
    | .sigterm =>
      { trace := tr ++ finiUnmodified st.OpenBuffers ++
          (if st.ScreenSet then [.ScreenFini] else []) ++ [.Exit 0]
        outcome := .exited 0 }

/-- The loop `for { DoEvent() }` of `app.Action`, for the sequence of `select`
cases asked for; it goes on while the iterations return and stops with the
first one that exits, panics or waits. -/
def runRouter (env : Collab) : List Ready → Editor → Step
  | [], st => { trace := [], outcome := .returned st }
  | r :: rs, st =>
    match (DoEvent env r st).outcome with
    | .returned st2 =>
      { trace := (DoEvent env r st).trace ++ (runRouter env rs st2).trace
        outcome := (runRouter env rs st2).outcome }
    | _ => DoEvent env r st

/-- The deferred function of `app.Action` (lines 117-133), for the value
`recover()` returns (`none` when there is no panic). -/
def deferredRecover (env : Collab) (recovered : Option PanicValue) (st : Editor) : Step :=
  match recovered with
  | none => { trace := [], outcome := .returned st }
  | some err =>
    { trace := (if st.ScreenSet then [.ScreenFini] else []) ++ [.Println err] ++
        backupAll env st.OpenBuffers ++ [.Exit 1]
      outcome := .exited 1 }

/-- The buffer a `Fini` call is made on. -/
def Act.fini? : Act → Option Buffer
  | .Fini b => some b
  | _ => none

/-- The buffer a `Backup` call is made on. -/
def Act.backup? : Act → Option Buffer
  | .Backup b _ => some b
  | _ => none

/-- The action is an `os.Exit`. -/
def Act.isExit : Act → Bool
  | .Exit _ => true
  | _ => false

/-- The action is a call of some `HandleEvent`. -/
def Act.isHandleEvent : Act → Bool
  | .InfoBarHandleEvent _ => true
  | .TabsHandleEvent _ => true
  | _ => false

/-- The action is the end of a render pass (`screen.Screen.Show()`). -/
def Act.isShow : Act → Bool
  | .Show => true
  | _ => false

/-- The action is a receive from `screen.DrawChan()`. -/
def Act.isDrawRecv : Act → Bool
  | .DrawRecv => true
  | _ => false

/-- Collaborators for running the model: handling an event through the tab
set opens a prompt, handling one through the prompt closes it, a job callback
and a save leave the state alone, and the backup of buffer 2 fails. -/
def demoCollab : Collab where
  JobCallback := fun _ st => st
  Save := fun _ st => st
  InfoBarHandleEvent := fun _ st => { st with HasPrompt := false }
  TabsHandleEvent := fun _ st => { st with HasPrompt := true }
  BackupFails := fun b => b.id == 2

/-- A state for running the model: three buffers, the second one modified, no
prompt, two panes, a live screen and three queued redraw requests. -/
def demoEditor : Editor where
  OpenBuffers := [⟨1, false⟩, ⟨2, true⟩, ⟨3, false⟩]
  HasPrompt := false
  Panes := [0, 1]
  ScreenSet := true
  DrawChan := 3

/-! ## Lemmas on the pattern and on `Atoi` -/

theorem digitsValue_foldl (ds : List Char) (n : Nat) :
    ds.foldl (fun n ch => n * 10 + (ch.toNat - '0'.toNat)) n
      = n * 10 ^ ds.length + digitsValue ds := by
  induction ds generalizing n with
  | nil => simp [digitsValue]
  | cons d ds ih =>
    simp only [List.foldl_cons, List.length_cons, digitsValue]
    rw [ih, ih (0 * 10 + _)]
    ring

theorem digitsValue_eq_decimalValue (ds : List Char) :
    digitsValue ds = decimalValue ds := by
  induction ds with
  | nil => simp [digitsValue, decimalValue]
  | cons d ds ih =>
    have h1 : digitsValue (d :: ds) = (d.toNat - 48) * 10 ^ ds.length + digitsValue ds := by
      have := digitsValue_foldl ds (0 * 10 + (d.toNat - '0'.toNat))
      simp only [digitsValue, List.foldl_cons]
      rw [this]
      simp [digitsValue]
    rw [h1, ih, decimalValue]

theorem takeWhile_digits_append (L t : List Char) (hL : ∀ c ∈ L, c.isDigit = true)
    (ht : ∀ c, t.head? = some c → c.isDigit = false) :
    (L ++ t).takeWhile Char.isDigit = L ∧ (L ++ t).dropWhile Char.isDigit = t := by
  induction L with
  | nil =>
    cases t with
    | nil => simp
    | cons c t => simp [List.takeWhile, List.dropWhile, ht c rfl]
  | cons d L ih =>
    have hd : d.isDigit = true := hL d (List.mem_cons_self _ _)
    have := ih (fun c hc => hL c (List.mem_cons_of_mem _ hc))
    simp [List.takeWhile, List.dropWhile, hd, this]

theorem mk_ne_empty (g : List Char) (h : g ≠ []) : String.mk g ≠ "" := by
  intro hc
  apply h
  have := congrArg String.data hc
  simpa using this

/-- What the matcher answers on a directive. -/
theorem flagr_of_directive (a : String) (L : List Char) (C : Option (List Char))
    (h : IsDirective a L C) :
    flagrFindStringSubmatch a = [a, String.mk L, String.mk (C.getD [])] := by
  obtain ⟨⟨hne, hdig⟩, hC⟩ := h
  cases C with
  | none =>
    simp only at hC
    have ht := takeWhile_digits_append L [] hdig (by simp)
    simp only [List.append_nil] at ht
    unfold flagrFindStringSubmatch
    rw [hC]
    simp [ht.1, ht.2, hne]
  | some c =>
    obtain ⟨⟨hcne, hcdig⟩, ha⟩ := hC
    have ht := takeWhile_digits_append L (':' :: c) hdig (by simp)
    unfold flagrFindStringSubmatch
    rw [ha]
    simp [ht.1, ht.2, hne, hcne]
    exact hcdig

/-- A nonempty answer of the matcher comes from a directive. -/
theorem directive_of_flagr (a : String) (h : flagrFindStringSubmatch a ≠ []) :
    MatchesPattern a := by
  unfold flagrFindStringSubmatch at h
  split at h
  · rename_i rest heq
    have htd := List.takeWhile_append_dropWhile Char.isDigit rest
    have hdig : ∀ c ∈ rest.takeWhile Char.isDigit, c.isDigit = true :=
      fun c hc => (List.mem_takeWhile_imp hc)
    simp only at h
    split at h
    · exact absurd rfl h
    · rename_i hne
      have hne2 : rest.takeWhile Char.isDigit ≠ [] := by simpa using hne
      split at h
      · rename_i hd
        refine ⟨rest.takeWhile Char.isDigit, none, ⟨hne2, hdig⟩, ?_⟩
        rw [hd, List.append_nil] at htd
        simp only [String.toList] at heq ⊢
        rw [heq, htd]
      · rename_i g2 hd
        split at h
        · rename_i hg
          simp only [Bool.and_eq_true, Bool.not_eq_true', List.isEmpty_eq_false,
            List.all_eq_true] at hg
          refine ⟨rest.takeWhile Char.isDigit, some g2, ⟨hne2, hdig⟩, ⟨?_, hg.2⟩, ?_⟩
          · intro hc; simp [hc] at hg
          · rw [hd] at htd
            simp only [String.toList] at heq ⊢
            rw [heq, htd]
        · exact absurd rfl h
      · exact absurd rfl h
  · exact absurd rfl h

theorem flagr_of_not_matches (a : String) (h : ¬ MatchesPattern a) :
    flagrFindStringSubmatch a = [] := by
  by_contra hc
  exact h (directive_of_flagr a hc)

theorem matches_iff_flagr (a : String) :
    MatchesPattern a ↔ flagrFindStringSubmatch a ≠ [] := by
  constructor
  · rintro ⟨L, C, h⟩
    rw [flagr_of_directive a L C h]
    simp
  · exact directive_of_flagr a

/-- On a digit run `Atoi` succeeds exactly when the value fits `int`. -/
theorem Atoi_digits (ds : List Char) (h : IsDigits ds) :
    Atoi (String.mk ds) =
      if (decimalValue ds : Int) ≤ maxInt then .ok (decimalValue ds : Int)
      else .error (.NumError "Atoi" (String.mk ds) .ErrRange) := by
  obtain ⟨hne, hdig⟩ := h
  have hall : ds.all Char.isDigit = true := by simpa using hdig
  have hmin : ¬ ((decimalValue ds : Int) < minInt) := by
    have h0 : (0 : Int) ≤ (decimalValue ds : Int) := Int.ofNat_nonneg _
    have h1 : minInt < 0 := by decide
    omega
  have hbody : (match (String.mk ds).toList with
      | '-' :: r => (true, r)
      | '+' :: r => (false, r)
      | cs => ((false, cs) : Bool × List Char)) = (false, ds) := by
    split
    · rename_i r heq
      have : ('-' : Char) ∈ ds := by
        simp only [String.toList] at heq
        rw [heq]; exact List.mem_cons_self _ _
      exact absurd (hdig _ this) (by decide)
    · rename_i r heq
      have : ('+' : Char) ∈ ds := by
        simp only [String.toList] at heq
        rw [heq]; exact List.mem_cons_self _ _
      exact absurd (hdig _ this) (by decide)
    · rfl
  unfold Atoi
  simp only [hbody, hall, digitsValue_eq_decimalValue]
  have hemp : ds.isEmpty = false := by simpa using hne
  simp only [hemp]
  by_cases hle : (decimalValue ds : Int) ≤ maxInt
  · have : ¬ (maxInt < (decimalValue ds : Int)) := by omega
    simp [hle, hmin, this]
  · have : maxInt < (decimalValue ds : Int) := by omega
    simp [hle, hmin, this]

/-- A matching token never reaches the file list: the loop either updates the
start position or, when a group does not convert, warns and goes on. -/
theorem scanStep_directive {β : Type} (st : ScanState β) (a : String) (L : List Char)
    (C : Option (List Char)) (h : IsDirective a L C) :
    scanStep st a =
      match Atoi (String.mk L) with
      | .error err => { st with trace := st.trace ++ [.TermMessage "" err] }
      | .ok line =>
        match C with
        | none => { st with flagStartPos := { X := 0, Y := line - 1 } }
        | some c =>
          match Atoi (String.mk c) with
          | .error err => { st with trace := st.trace ++ [.TermMessage "" err] }
          | .ok col => { st with flagStartPos := { X := col - 1, Y := line - 1 } } := by
  unfold scanStep
  rw [flagr_of_directive a L C h]
  cases C with
  | none =>
    simp
  | some c =>
    have hc : String.mk c ≠ "" := mk_ne_empty c h.2.1.1
    simp [hc]

/-- A token that does not match the pattern is appended to the file list. -/
theorem scanStep_file {β : Type} (st : ScanState β) (a : String) (h : ¬ MatchesPattern a) :
    scanStep st a = { st with files := st.files ++ [a] } := by
  unfold scanStep
  rw [flagr_of_not_matches a h]
  simp

/-- A directive whose groups convert sets the start position it stands for. -/
theorem scanStep_converts {β : Type} (st : ScanState β) (a : String) (L : List Char)
    (C : Option (List Char)) (h : IsDirective a L C) (hc : Converts L C) :
    scanStep st a = { st with flagStartPos := directiveLoc L C } := by
  rw [scanStep_directive st a L C h, Atoi_digits L h.1, if_pos hc.1]
  cases C with
  | none => rfl
  | some c =>
    simp only
    rw [Atoi_digits c h.2.1, if_pos hc.2]
    rfl

/-- A directive with a group that does not convert leaves files and start
position alone and adds one warning. -/
theorem scanStep_not_converts {β : Type} (st : ScanState β) (a : String) (L : List Char)
    (C : Option (List Char)) (h : IsDirective a L C) (hc : ¬ Converts L C) :
    ∃ g, (g = L ∨ C = some g) ∧
      scanStep st a =
        { st with trace := st.trace ++
            [.TermMessage "" (.NumError "Atoi" (String.mk g) .ErrRange)] } := by
  rw [scanStep_directive st a L C h, Atoi_digits L h.1]
  by_cases hL : (decimalValue L : Int) ≤ maxInt
  · rw [if_pos hL]
    cases C with
    | none => exact absurd ⟨hL, trivial⟩ hc
    | some c =>
      have hcv : ¬ (decimalValue c : Int) ≤ maxInt := fun hcc => hc ⟨hL, hcc⟩
      refine ⟨c, Or.inr rfl, ?_⟩
      simp only
      rw [Atoi_digits c h.2.1, if_neg hcv]
  · rw [if_neg hL]
    exact ⟨L, Or.inl rfl, rfl⟩

/-- A directive token determines its digit groups. -/
theorem directive_unique (a : String) (L L2 : List Char) (C C2 : Option (List Char))
    (h : IsDirective a L C) (h2 : IsDirective a L2 C2) : L = L2 ∧ C = C2 := by
  have e1 := flagr_of_directive a L C h
  have e2 := flagr_of_directive a L2 C2 h2
  rw [e1] at e2
  have hL : L = L2 := by
    have := congrArg (fun l => (l.getD 1 "").data) e2
    simpa using this
  have hC : C.getD [] = C2.getD [] := by
    have := congrArg (fun l => (l.getD 2 "").data) e2
    simpa using this
  refine ⟨hL, ?_⟩
  cases C with
  | none =>
    cases C2 with
    | none => rfl
    | some c2 => exact absurd hC.symm h2.2.1.1
  | some c =>
    cases C2 with
    | none => exact absurd hC h.2.1.1
    | some c2 =>
      simp only [Option.getD_some] at hC
      rw [hC]

/-! ## Lemmas on the argument loop -/

/-- The three things one iteration of the argument loop can do. -/
theorem scanStep_cases {β : Type} (st : ScanState β) (a : String) :
    (¬ MatchesPattern a ∧ scanStep st a = { st with files := st.files ++ [a] }) ∨
    (∃ L C, IsDirective a L C ∧ Converts L C ∧
      scanStep st a = { st with flagStartPos := directiveLoc L C }) ∨
    (∃ L C g, IsDirective a L C ∧ ¬ Converts L C ∧
      scanStep st a = { st with trace := st.trace ++
        [.TermMessage "" (.NumError "Atoi" (String.mk g) .ErrRange)] }) := by
  by_cases hm : MatchesPattern a
  · obtain ⟨L, C, hd⟩ := hm
    by_cases hc : Converts L C
    · exact Or.inr (Or.inl ⟨L, C, hd, hc, scanStep_converts st a L C hd hc⟩)
    · obtain ⟨g, _, hg⟩ := scanStep_not_converts st a L C hd hc
      exact Or.inr (Or.inr ⟨L, C, g, hd, hc, hg⟩)
  · exact Or.inl ⟨hm, scanStep_file st a hm⟩

theorem scanArgs_append (β : Type) (xs ys : List String) :
    scanArgs β (xs ++ ys) = ys.foldl scanStep (scanArgs β xs) := by
  simp [scanArgs, List.foldl_append]

theorem scan_files {β : Type} [DecidablePred MatchesPattern] (args : List String)
    (st : ScanState β) :
    (args.foldl scanStep st).files
      = st.files ++ args.filter (fun a => decide (¬ MatchesPattern a)) := by
  induction args generalizing st with
  | nil => simp
  | cons a as ih =>
    rw [List.foldl_cons, ih]
    rcases scanStep_cases st a with ⟨hm, he⟩ | ⟨L, C, hd, _, he⟩ | ⟨L, C, g, hd, _, he⟩
    · rw [he]; simp [List.filter_cons, hm]
    · have hm : MatchesPattern a := ⟨L, C, hd⟩
      rw [he]; simp [List.filter_cons, hm]
    · have hm : MatchesPattern a := ⟨L, C, hd⟩
      rw [he]; simp [List.filter_cons, hm]

theorem scan_pos_unchanged {β : Type} (post : List String) (st : ScanState β)
    (h : ∀ b ∈ post, ∀ L C, IsDirective b L C → ¬ Converts L C) :
    (post.foldl scanStep st).flagStartPos = st.flagStartPos := by
  induction post generalizing st with
  | nil => rfl
  | cons a as ih =>
    rw [List.foldl_cons, ih _ (fun b hb => h b (List.mem_cons_of_mem _ hb))]
    rcases scanStep_cases st a with ⟨_, he⟩ | ⟨L, C, hd, hc, _⟩ | ⟨L, C, g, _, _, he⟩
    · rw [he]
    · exact absurd hc (h a (List.mem_cons_self _ _) L C hd)
    · rw [he]

theorem scan_trace {β : Type} (args : List String) (st : ScanState β) :
    ∃ w, (args.foldl scanStep st).trace = st.trace ++ w ∧ ∀ e ∈ w, e.isWarning = true := by
  induction args generalizing st with
  | nil => exact ⟨[], by simp, by simp⟩
  | cons a as ih =>
    rw [List.foldl_cons]
    obtain ⟨w, hw, hall⟩ := ih (scanStep st a)
    rcases scanStep_cases st a with ⟨_, he⟩ | ⟨L, C, _, _, he⟩ | ⟨L, C, g, _, _, he⟩
    · exact ⟨w, by rw [hw, he], hall⟩
    · exact ⟨w, by rw [hw, he], hall⟩
    · refine ⟨Effect.TermMessage "" (.NumError "Atoi" (String.mk g) .ErrRange) :: w,
        by rw [hw, he]; simp, ?_⟩
      intro e he2
      rcases List.mem_cons.1 he2 with h1 | h1
      · rw [h1]; rfl
      · exact hall e h1

theorem scanArgs_trace (β : Type) (args : List String) :
    ∀ e ∈ (scanArgs β args).trace, e.isWarning = true := by
  obtain ⟨w, hw, hall⟩ := scan_trace args (scanInit β)
  intro e he
  have : (scanArgs β args).trace = w := by
    rw [scanArgs, hw]; rfl
  rw [this] at he
  exact hall e he

theorem consistent_of_warnings {β : Type} (env : Env β) (w : List (Effect β))
    (h : ∀ e ∈ w, e.isWarning = true) : Consistent env w := by
  induction w using List.reverseRecOn with
  | nil => exact Consistent.nil
  | append_singleton p e ih =>
    refine Consistent.snoc p e (ih fun x hx => h x (List.mem_append_left _ hx)) ?_
    have he := h e (by simp)
    cases e <;> simp [Effect.isWarning] at he
    trivial

/-! ## Lemmas on the file loop and on `LoadInput` -/

theorem openFiles_spec {β : Type} (env : Env β) (bt : BufType) (pos : Loc)
    (fs : List String) (acc : Loaded β) :
    ∃ results : List (OpenResult β),
      results.length = fs.length ∧
      (openFiles env bt pos fs acc).trace
        = acc.trace ++ (List.zipWith (openEntry bt pos) fs results).flatten ∧
      (openFiles env bt pos fs acc).buffers
        = acc.buffers ++ results.filterMap OpenResult.buf? := by
  induction fs generalizing acc with
  | nil => exact ⟨[], rfl, by simp [openFiles], by simp [openFiles]⟩
  | cons f fs ih =>
    unfold openFiles
    cases hr : env.NewBufferFromFileAtLoc acc.trace f bt pos with
    | ok b =>
      simp only
      obtain ⟨rs, hlen, htr, hb⟩ := ih
        { buffers := acc.buffers ++ [b]
          trace := acc.trace ++ [.NewBufferFromFileAtLoc f bt pos (.ok b)] }
      refine ⟨.ok b :: rs, by simp [hlen], ?_, ?_⟩
      · rw [htr]; simp [openEntry]
      · rw [hb]; simp [OpenResult.buf?]
    | err e =>
      simp only
      obtain ⟨rs, hlen, htr, hb⟩ := ih
        { acc with
          trace := acc.trace ++
            [.NewBufferFromFileAtLoc f bt pos (.err e), .TermMessage "" e] }
      refine ⟨.err e :: rs, by simp [hlen], ?_, ?_⟩
      · rw [htr]; simp [openEntry]
      · rw [hb]; simp [OpenResult.buf?]

theorem openFiles_consistent {β : Type} (env : Env β) (bt : BufType) (pos : Loc)
    (fs : List String) (acc : Loaded β) (h : Consistent env acc.trace) :
    Consistent env (openFiles env bt pos fs acc).trace := by
  induction fs generalizing acc with
  | nil => simpa [openFiles] using h
  | cons f fs ih =>
    unfold openFiles
    cases hr : env.NewBufferFromFileAtLoc acc.trace f bt pos with
    | ok b =>
      simp only
      apply ih
      exact Consistent.snoc _ _ h hr.symm
    | err e =>
      simp only
      apply ih
      have h1 : Consistent env (acc.trace ++ [.NewBufferFromFileAtLoc f bt pos (.err e)]) :=
        Consistent.snoc _ _ h hr.symm
      have h2 := Consistent.snoc _ (.TermMessage "" e) h1 trivial
      simpa using h2

theorem openFiles_calls {β : Type} (env : Env β) (bt : BufType) (pos : Loc)
    (fs : List String) (acc : Loaded β) (h : ∀ e ∈ acc.trace, CallUses bt pos e) :
    ∀ e ∈ (openFiles env bt pos fs acc).trace, CallUses bt pos e := by
  induction fs generalizing acc with
  | nil => simpa [openFiles] using h
  | cons f fs ih =>
    unfold openFiles
    cases hr : env.NewBufferFromFileAtLoc acc.trace f bt pos with
    | ok b =>
      simp only
      apply ih
      intro e he
      rcases List.mem_append.1 he with h1 | h1
      · exact h e h1
      · simp only [List.mem_singleton] at h1
        rw [h1]
        constructor <;> intro x hx <;> simp [Effect.startPos?, Effect.btype?] at hx <;>
          exact hx.symm
    | err er =>
      simp only
      apply ih
      intro e he
      rcases List.mem_append.1 he with h1 | h1
      · exact h e h1
      · simp only [List.mem_cons, List.mem_singleton, List.not_mem_nil, or_false] at h1
        rcases h1 with h1 | h1
        · rw [h1]
          constructor <;> intro x hx <;> simp [Effect.startPos?, Effect.btype?] at hx <;>
            exact hx.symm
        · rw [h1]
          constructor <;> intro x hx <;> simp [Effect.startPos?, Effect.btype?] at hx

theorem callUses_of_warning {β : Type} (bt : BufType) (pos : Loc) (e : Effect β)
    (h : e.isWarning = true) : CallUses bt pos e := by
  cases e <;> simp [Effect.isWarning] at h
  constructor <;> intro x hx <;> simp [Effect.startPos?, Effect.btype?] at hx

/-- Every constructor call of `LoadInput` is given the tag chosen at the start
and the start position the argument loop retained. -/
theorem LoadInput_calls {β : Type} (env : Env β) (args : List String) :
    ∀ e ∈ (LoadInput env args).trace,
      CallUses (outputTag env) (scanArgs β args).flagStartPos e := by
  have hsc : ∀ e ∈ (scanArgs β args).trace,
      CallUses (outputTag env) (scanArgs β args).flagStartPos e :=
    fun e he => callUses_of_warning _ _ e (scanArgs_trace β args e he)
  have hnew : ∀ (t f : String) (b : β),
      CallUses (outputTag env) (scanArgs β args).flagStartPos
        (Effect.NewBufferFromStringAtLoc t f (outputTag env)
          (scanArgs β args).flagStartPos b) := by
    intro t f b
    constructor <;> intro x hx <;> simp [Effect.startPos?, Effect.btype?] at hx <;>
      exact hx.symm
  have hother : ∀ e : Effect β, e.startPos? = none → e.btype? = none →
      CallUses (outputTag env) (scanArgs β args).flagStartPos e := by
    intro e h1 h2
    constructor <;> intro x hx
    · rw [h1] at hx; cases hx
    · rw [h2] at hx; cases hx
  unfold LoadInput
  simp only
  split
  · exact openFiles_calls env _ _ _ _ hsc
  · split
    · intro e he
      simp only [List.mem_append, List.mem_singleton] at he
      rcases he with he | he
      · split at he
        · simp only [List.mem_append, List.mem_singleton] at he
          rcases he with (he | he) | he
          · exact hsc e he
          · rw [he]; exact hother _ rfl rfl
          · rw [he]; exact hother _ rfl rfl
        · simp only [List.mem_append, List.mem_singleton] at he
          rcases he with he | he
          · exact hsc e he
          · rw [he]; exact hother _ rfl rfl
      · rw [he]; exact hnew _ _ _
    · intro e he
      simp only [List.mem_append, List.mem_singleton] at he
      rcases he with he | he
      · exact hsc e he
      · rw [he]; exact hnew _ _ _

/-- The trace of `LoadInput` records the collaborators' own answers. -/
theorem LoadInput_consistent {β : Type} (env : Env β) (args : List String) :
    Consistent env (LoadInput env args).trace := by
  have hsc : Consistent env (scanArgs β args).trace :=
    consistent_of_warnings env _ (scanArgs_trace β args)
  unfold LoadInput
  simp only
  split
  · exact openFiles_consistent env _ _ _ _ hsc
  · split
    · have h1 := Consistent.snoc _ (.ReadAll (env.ReadAll (scanArgs β args).trace).1
          (env.ReadAll (scanArgs β args).trace).2) hsc rfl
      split
      · rename_i e heq
        have h2 := Consistent.snoc _
          (.TermMessage "Error reading from stdin: " e) h1 trivial
        simp only [heq] at h2 ⊢
        exact Consistent.snoc _ _ h2 rfl
      · rename_i heq
        simp only [heq] at h1 ⊢
        exact Consistent.snoc _ _ h1 rfl
    · exact Consistent.snoc _ _ hsc rfl

theorem filterMap_openCall_entries {β : Type} (bt : BufType) (pos : Loc)
    (fs : List String) (results : List (OpenResult β)) (h : results.length = fs.length) :
    (List.zipWith (openEntry bt pos) fs results).flatten.filterMap Effect.openCall?
      = fs.map fun f => (f, bt, pos) := by
  induction fs generalizing results with
  | nil => simp
  | cons f fs ih =>
    cases results with
    | nil => simp at h
    | cons r rs =>
      simp only [List.length_cons, Nat.add_right_cancel_iff] at h
      simp only [List.zipWith_cons_cons, List.flatten_cons, List.filterMap_append, ih rs h,
        List.map_cons]
      cases r <;> simp [openEntry, Effect.openCall?]

theorem filterMap_openCall_warnings {β : Type} (w : List (Effect β))
    (h : ∀ e ∈ w, e.isWarning = true) : w.filterMap Effect.openCall? = [] := by
  rw [List.filterMap_eq_nil_iff]
  intro e he
  have := h e he
  cases e <;> simp [Effect.isWarning] at this
  rfl

/-- The paths `LoadInput` opens are the collected file paths, each opened once,
in order, with the chosen tag and the retained start position. -/
theorem LoadInput_opens {β : Type} (env : Env β) (args : List String) :
    (LoadInput env args).trace.filterMap Effect.openCall?
      = (scanArgs β args).files.map
          fun f => (f, outputTag env, (scanArgs β args).flagStartPos) := by
  have hw := filterMap_openCall_warnings _ (scanArgs_trace β args)
  unfold LoadInput
  simp only
  split
  · obtain ⟨rs, hlen, htr, _⟩ := openFiles_spec env (outputTag env)
      (scanArgs β args).flagStartPos (scanArgs β args).files
      { buffers := [], trace := (scanArgs β args).trace }
    rw [htr, List.filterMap_append, hw, filterMap_openCall_entries _ _ _ _ hlen]
    rfl
  · rename_i hlen
    have hnil : (scanArgs β args).files = [] := by
      cases hf : (scanArgs β args).files with
      | nil => rfl
      | cons x xs => rw [hf] at hlen; simp at hlen
    rw [hnil]
    split
    · split <;> simp [List.filterMap_append, hw, Effect.openCall?]
    · simp [List.filterMap_append, hw, Effect.openCall?]

theorem filterMap_buffer_entries {β : Type} (bt : BufType) (pos : Loc)
    (fs : List String) (results : List (OpenResult β)) (h : results.length = fs.length) :
    (List.zipWith (openEntry bt pos) fs results).flatten.filterMap Effect.buffer?
      = results.filterMap OpenResult.buf? := by
  induction fs generalizing results with
  | nil =>
    cases results with
    | nil => simp
    | cons r rs => simp at h
  | cons f fs ih =>
    cases results with
    | nil => simp at h
    | cons r rs =>
      simp only [List.length_cons, Nat.add_right_cancel_iff] at h
      simp only [List.zipWith_cons_cons, List.flatten_cons, List.filterMap_append, ih rs h]
      cases r <;> simp [openEntry, Effect.buffer?, OpenResult.buf?]

theorem filterMap_buffer_warnings {β : Type} (w : List (Effect β))
    (h : ∀ e ∈ w, e.isWarning = true) : w.filterMap Effect.buffer? = [] := by
  rw [List.filterMap_eq_nil_iff]
  intro e he
  have := h e he
  cases e <;> simp [Effect.isWarning] at this
  rfl

theorem filterMap_stringCall_warnings {β : Type} (w : List (Effect β))
    (h : ∀ e ∈ w, e.isWarning = true) : w.filterMap Effect.stringCall? = [] := by
  rw [List.filterMap_eq_nil_iff]
  intro e he
  have := h e he
  cases e <;> simp [Effect.isWarning] at this
  rfl

/-- The buffers `LoadInput` returns are the buffers its constructor calls
produced, in call order. -/
theorem LoadInput_buffers {β : Type} (env : Env β) (args : List String) :
    (LoadInput env args).buffers = (LoadInput env args).trace.filterMap Effect.buffer? := by
  have hw := filterMap_buffer_warnings _ (scanArgs_trace β args)
  unfold LoadInput
  simp only
  split
  · obtain ⟨rs, hlen, htr, hb⟩ := openFiles_spec env (outputTag env)
      (scanArgs β args).flagStartPos (scanArgs β args).files
      { buffers := [], trace := (scanArgs β args).trace }
    rw [htr, hb, List.filterMap_append, hw, filterMap_buffer_entries _ _ _ _ hlen]
  · split
    · split <;> simp [List.filterMap_append, hw, Effect.buffer?]
    · simp [List.filterMap_append, hw, Effect.buffer?]

/-- When the answer of an open depends on the path only, the buffers of the
file loop are those of the paths that open, in order. -/
theorem openFiles_buffers_pure {β : Type} (env : Env β) (bt : BufType) (pos : Loc)
    (opn : String → OpenResult β)
    (h : ∀ past f, env.NewBufferFromFileAtLoc past f bt pos = opn f)
    (fs : List String) (acc : Loaded β) :
    (openFiles env bt pos fs acc).buffers
      = acc.buffers ++ fs.filterMap fun f => (opn f).buf? := by
  induction fs generalizing acc with
  | nil => simp [openFiles]
  | cons f fs ih =>
    unfold openFiles
    rw [h]
    cases hr : opn f with
    | ok b => simp only; rw [ih]; simp [List.filterMap_cons, hr, OpenResult.buf?]
    | err e => simp only; rw [ih]; simp [List.filterMap_cons, hr, OpenResult.buf?]

theorem files_nil_of_all_match (β : Type) (args : List String)
    (h : ∀ a ∈ args, MatchesPattern a) : (scanArgs β args).files = [] := by
  haveI : DecidablePred MatchesPattern := Classical.decPred _
  rw [scanArgs, scan_files]
  show [] ++ _ = _
  rw [List.nil_append, List.filter_eq_nil_iff]
  intro a ha
  simpa using h a ha

theorem files_ne_nil_of_some_file (β : Type) (args : List String)
    (h : ∃ a ∈ args, ¬ MatchesPattern a) : (scanArgs β args).files ≠ [] := by
  obtain ⟨a, ha, hm⟩ := h
  haveI : DecidablePred MatchesPattern := Classical.decPred _
  rw [scanArgs, scan_files]
  show [] ++ _ ≠ _
  rw [List.nil_append]
  intro hnil
  rw [List.filter_eq_nil_iff] at hnil
  have := hnil a ha
  simp [hm] at this

/-! ## The input resolver: claims -/

/-- C1, as stated, fails: in `+5 +99999999999999999999 a.txt` the last token
matching the pattern is `+99999999999999999999`, which would stand for line
99999999999999999998, but its digit group does not fit `int`, so the loop warns
and `a.txt` is opened at the position of the earlier `+5`, line 4, column 0. -/
theorem C1_counterexample :
    IsDirective "+99999999999999999999" "99999999999999999999".toList none ∧
    (∀ b ∈ ["a.txt"], ¬ MatchesPattern b) ∧
    directiveLoc "99999999999999999999".toList none = ⟨0, 99999999999999999998⟩ ∧
    (LoadInput (recEnv true true none [])
        (["+5"] ++ "+99999999999999999999" :: ["a.txt"])).trace
      = [.TermMessage "" (.NumError "Atoi" "99999999999999999999" .ErrRange),
         .NewBufferFromFileAtLoc "a.txt" .BTDefault ⟨0, 4⟩
           (.ok ⟨"a.txt", "", .BTDefault, ⟨0, 4⟩⟩)] ∧
    ¬ (∀ e ∈ (LoadInput (recEnv true true none [])
          (["+5"] ++ "+99999999999999999999" :: ["a.txt"])).trace,
        ∀ l, e.startPos? = some l →
          l = directiveLoc "99999999999999999999".toList none) := by
  have htr : (LoadInput (recEnv true true none [])
        (["+5"] ++ "+99999999999999999999" :: ["a.txt"])).trace
      = [.TermMessage "" (.NumError "Atoi" "99999999999999999999" .ErrRange),
         .NewBufferFromFileAtLoc "a.txt" .BTDefault ⟨0, 4⟩
           (.ok ⟨"a.txt", "", .BTDefault, ⟨0, 4⟩⟩)] := by decide
  refine ⟨⟨by decide, rfl⟩, ?_, by decide, htr, ?_⟩
  · intro b hb hm
    rw [List.mem_singleton.1 hb] at hm
    exact absurd ((matches_iff_flagr _).1 hm) (by decide)
  intro h
  have := h (.NewBufferFromFileAtLoc "a.txt" .BTDefault ⟨0, 4⟩
      (.ok ⟨"a.txt", "", .BTDefault, ⟨0, 4⟩⟩))
    (by rw [htr]; exact List.mem_cons_of_mem _ (List.mem_cons_self _ _)) ⟨0, 4⟩ rfl
  revert this
  decide

/-- C1 (amended): when the argument list holds a token `+L` or `+L:C` whose
digit groups fit `int`, and no later token is such a directive, the argument
loop retains line `L - 1` with column `0` (for `+L`) or `C - 1` (for `+L:C`),
and every buffer constructor `LoadInput` calls is given that position, whatever
precedes the token. -/
theorem C1_last_converting_directive {β : Type} (env : Env β) (pre post : List String)
    (a : String) (L : List Char) (C : Option (List Char))
    (ha : IsDirective a L C) (hconv : Converts L C)
    (hpost : ∀ b ∈ post, ∀ L2 C2, IsDirective b L2 C2 → ¬ Converts L2 C2) :
    (scanArgs β (pre ++ a :: post)).flagStartPos = directiveLoc L C ∧
    ∀ e ∈ (LoadInput env (pre ++ a :: post)).trace,
      ∀ l, e.startPos? = some l → l = directiveLoc L C := by
  have hpos : (scanArgs β (pre ++ a :: post)).flagStartPos = directiveLoc L C := by
    rw [scanArgs_append, List.foldl_cons, scan_pos_unchanged post _ hpost,
      scanStep_converts _ a L C ha hconv]
  refine ⟨hpos, ?_⟩
  intro e he l hl
  rw [← hpos]
  exact (LoadInput_calls env (pre ++ a :: post) e he).1 l hl

/-- C1 at `+10:5 a.txt`: the one buffer is opened at line 9, column 4. -/
theorem C1_witness :
    IsDirective "+10:5" ['1', '0'] (some ['5']) ∧
    (LoadInput (recEnv true true none []) ([] ++ "+10:5" :: ["a.txt"])).buffers
      = [⟨"a.txt", "", .BTDefault, ⟨4, 9⟩⟩] ∧
    ∀ e ∈ (LoadInput (recEnv true true none []) ([] ++ "+10:5" :: ["a.txt"])).trace,
      ∀ l, e.startPos? = some l → l = ⟨4, 9⟩ :=
  ⟨by decide, by decide,
    (C1_last_converting_directive (recEnv true true none []) [] ["a.txt"] "+10:5"
      ['1', '0'] (some ['5']) (by decide) (by decide)
      (by
        intro b hb L2 C2 hd
        have hm : MatchesPattern b := ⟨L2, C2, hd⟩
        simp only [List.mem_singleton] at hb
        rw [hb] at hm
        exact absurd ((matches_iff_flagr _).1 hm) (by decide))).2⟩

/-- C2: the file paths `LoadInput` collects are the arguments that do not match
`+<digits>` or `+<digits>:<digits>`, in argument order with duplicates kept, and
these are the paths it opens; no collected path matches the pattern, and `+`,
`+abc`, `+1:`, `+:3` and `+1:2:3` are all collected as file paths. -/
theorem C2_files_are_the_nonmatching_tokens {β : Type} [DecidablePred MatchesPattern]
    (env : Env β) (args : List String) :
    (scanArgs β args).files = args.filter (fun a => decide (¬ MatchesPattern a)) ∧
    ((LoadInput env args).trace.filterMap Effect.openCall?).map (fun c => c.1)
      = args.filter (fun a => decide (¬ MatchesPattern a)) ∧
    (∀ a ∈ (scanArgs β args).files, ¬ MatchesPattern a) ∧
    (scanArgs β ["+", "+abc", "+1:", "+:3", "+1:2:3"]).files
      = ["+", "+abc", "+1:", "+:3", "+1:2:3"] := by
  have hf : (scanArgs β args).files = args.filter (fun a => decide (¬ MatchesPattern a)) := by
    rw [scanArgs, scan_files]; rfl
  refine ⟨hf, ?_, ?_, ?_⟩
  · rw [LoadInput_opens, ← hf, List.map_map]
    exact List.map_id _
  · intro a ha
    rw [hf, List.mem_filter] at ha
    simpa using ha.2
  · have hno : ∀ a ∈ ["+", "+abc", "+1:", "+:3", "+1:2:3"], ¬ MatchesPattern a := by
      intro a ha hm
      have hfl := (matches_iff_flagr a).1 hm
      simp only [List.mem_cons, List.mem_singleton, List.not_mem_nil, or_false] at ha
      rcases ha with h | h | h | h | h <;> subst h <;> exact absurd hfl (by decide)
    rw [scanArgs, scan_files]
    show [] ++ _ = _
    rw [List.nil_append, List.filter_eq_self]
    intro a ha
    simpa using hno a ha

/-- C2 at `+3 a +x a +1:2`: the collected paths are `a`, `+x`, `a`, and none
of them matches the pattern. -/
theorem C2_witness :
    (scanArgs RecBuf ["+3", "a", "+x", "a", "+1:2"]).files = ["a", "+x", "a"] ∧
    ∀ a ∈ (scanArgs RecBuf ["+3", "a", "+x", "a", "+1:2"]).files, ¬ MatchesPattern a :=
  ⟨by decide,
   (@C2_files_are_the_nonmatching_tokens RecBuf (Classical.decPred _)
      (recEnv true true none []) ["+3", "a", "+x", "a", "+1:2"]).2.2.1⟩

/-- C3: when some argument is a file path, `LoadInput` opens every collected
path once, in argument order, with the chosen tag and the retained start
position; an open that fails is followed by a warning and the loop goes on to
the next path; the buffers returned are those of the successful opens, in the
same order, and each recorded answer is the collaborator's own; when the answer
of an open depends on the path only, the buffers returned are those of the
collected paths that open, in argument order. -/
theorem C3_buffers_of_successful_opens {β : Type} (env : Env β) (args : List String)
    (h : ∃ a ∈ args, ¬ MatchesPattern a) :
    (∃ results : List (OpenResult β),
      results.length = (scanArgs β args).files.length ∧
      (LoadInput env args).trace
        = (scanArgs β args).trace ++
          (List.zipWith (openEntry (outputTag env) (scanArgs β args).flagStartPos)
            (scanArgs β args).files results).flatten ∧
      (LoadInput env args).buffers = results.filterMap OpenResult.buf? ∧
      Consistent env (LoadInput env args).trace) ∧
    ∀ opn : String → OpenResult β,
      (∀ past f, env.NewBufferFromFileAtLoc past f (outputTag env)
          (scanArgs β args).flagStartPos = opn f) →
      (LoadInput env args).buffers
        = (scanArgs β args).files.filterMap fun f => (opn f).buf? := by
  have hne := files_ne_nil_of_some_file β args h
  have hlen : (scanArgs β args).files.length > 0 := List.length_pos.2 hne
  obtain ⟨rs, hl, htr, hb⟩ := openFiles_spec env (outputTag env)
    (scanArgs β args).flagStartPos (scanArgs β args).files
    { buffers := [], trace := (scanArgs β args).trace }
  have hLI : LoadInput env args = openFiles env (outputTag env)
      (scanArgs β args).flagStartPos (scanArgs β args).files
      { buffers := [], trace := (scanArgs β args).trace } := by
    unfold LoadInput
    simp only [hlen, if_true]
  refine ⟨⟨rs, hl, ?_, ?_, LoadInput_consistent env args⟩, ?_⟩
  · rw [hLI, htr]
  · rw [hLI, hb]; rfl
  · intro opn hopn
    rw [hLI, openFiles_buffers_pure env _ _ opn hopn]
    rfl

/-- C3 at `a.txt +3 gone.txt b.txt` when opening `gone.txt` fails: the buffers
of `a.txt` and `b.txt` are returned, in that order, both at line 2, and a
warning follows the failed open. -/
theorem C3_witness :
    (LoadInput (recEnv true true none ["gone.txt"])
        ["a.txt", "+3", "gone.txt", "b.txt"])
      = { buffers := [⟨"a.txt", "", .BTDefault, ⟨0, 2⟩⟩, ⟨"b.txt", "", .BTDefault, ⟨0, 2⟩⟩]
          trace :=
            [.NewBufferFromFileAtLoc "a.txt" .BTDefault ⟨0, 2⟩
               (.ok ⟨"a.txt", "", .BTDefault, ⟨0, 2⟩⟩),
             .NewBufferFromFileAtLoc "gone.txt" .BTDefault ⟨0, 2⟩ (.err (.other "gone.txt")),
             .TermMessage "" (.other "gone.txt"),
             .NewBufferFromFileAtLoc "b.txt" .BTDefault ⟨0, 2⟩
               (.ok ⟨"b.txt", "", .BTDefault, ⟨0, 2⟩⟩)] } ∧
    ∃ results : List (OpenResult RecBuf),
      results.length
        = (scanArgs RecBuf ["a.txt", "+3", "gone.txt", "b.txt"]).files.length ∧
      (LoadInput (recEnv true true none ["gone.txt"])
          ["a.txt", "+3", "gone.txt", "b.txt"]).trace
        = (scanArgs RecBuf ["a.txt", "+3", "gone.txt", "b.txt"]).trace ++
          (List.zipWith (openEntry (outputTag (recEnv true true none ["gone.txt"]))
              (scanArgs RecBuf ["a.txt", "+3", "gone.txt", "b.txt"]).flagStartPos)
            (scanArgs RecBuf ["a.txt", "+3", "gone.txt", "b.txt"]).files results).flatten ∧
      (LoadInput (recEnv true true none ["gone.txt"])
          ["a.txt", "+3", "gone.txt", "b.txt"]).buffers
        = results.filterMap OpenResult.buf? ∧
      Consistent (recEnv true true none ["gone.txt"])
        (LoadInput (recEnv true true none ["gone.txt"])
          ["a.txt", "+3", "gone.txt", "b.txt"]).trace :=
  ⟨by decide,
    (C3_buffers_of_successful_opens (recEnv true true none ["gone.txt"])
      ["a.txt", "+3", "gone.txt", "b.txt"]
      ⟨"a.txt", by decide, fun hm => absurd ((matches_iff_flagr _).1 hm) (by decide)⟩).1⟩

/-- C4: when no argument is a file path, `LoadInput` opens no file and calls
the string constructor once, with the chosen tag, at the retained start
position and with an empty path; the text is empty when standard input is a
terminal, and otherwise it is what `io.ReadAll` returned, replaced by the empty
text when `io.ReadAll` reported an error; the buffer of that call is the one
buffer returned. -/
theorem C4_single_buffer_without_paths {β : Type} (env : Env β) (args : List String)
    (h : ∀ a ∈ args, MatchesPattern a) :
    ∃ b, (LoadInput env args).buffers = [b] ∧
      (LoadInput env args).trace.filterMap Effect.stringCall?
        = [((if env.stdinIsTerminal then ""
              else
                match (env.ReadAll (scanArgs β args).trace).2 with
                | none => (env.ReadAll (scanArgs β args).trace).1
                | some _ => ""),
            "", outputTag env, (scanArgs β args).flagStartPos, b)] ∧
      (LoadInput env args).trace.filterMap Effect.openCall? = [] ∧
      Consistent env (LoadInput env args).trace := by
  have hnil := files_nil_of_all_match β args h
  have hopens : (LoadInput env args).trace.filterMap Effect.openCall? = [] := by
    rw [LoadInput_opens, hnil]; rfl
  have hw := filterMap_stringCall_warnings _ (scanArgs_trace β args)
  have hcons := LoadInput_consistent env args
  revert hopens hcons
  unfold LoadInput
  simp only [hnil, List.length_nil, gt_iff_lt, lt_self_iff_false, if_false]
  intro hopens hcons
  cases hterm : env.stdinIsTerminal with
  | true =>
    simp only [hterm] at hopens hcons ⊢
    refine ⟨_, rfl, ?_, hopens, hcons⟩
    simp [List.filterMap_append, hw, Effect.stringCall?]
  | false =>
    simp only [hterm] at hopens hcons ⊢
    refine ⟨_, rfl, ?_, hopens, hcons⟩
    cases hrd : (env.ReadAll (scanArgs β args).trace).2 with
    | none => simp [List.filterMap_append, hw, Effect.stringCall?, hrd]
    | some e => simp [List.filterMap_append, hw, Effect.stringCall?, hrd]

/-- C4 at `+3` with `hello` piped into standard input: one buffer holding
`hello`, at line 2, column 0. -/
theorem C4_witness :
    (LoadInput (recEnv true false (some "hello") []) ["+3"]).buffers
      = [⟨"", "hello", .BTDefault, ⟨0, 2⟩⟩] ∧
    (LoadInput (recEnv true false none []) ["+3"]).buffers
      = [⟨"", "", .BTDefault, ⟨0, 2⟩⟩] ∧
    ∃ b, (LoadInput (recEnv true false (some "hello") []) ["+3"]).buffers = [b] ∧
      (LoadInput (recEnv true false (some "hello") []) ["+3"]).trace.filterMap
          Effect.stringCall?
        = [((if (recEnv true false (some "hello") []).stdinIsTerminal then ""
              else
                match ((recEnv true false (some "hello") []).ReadAll
                    (scanArgs RecBuf ["+3"]).trace).2 with
                | none => ((recEnv true false (some "hello") []).ReadAll
                    (scanArgs RecBuf ["+3"]).trace).1
                | some _ => ""),
            "", outputTag (recEnv true false (some "hello") []),
            (scanArgs RecBuf ["+3"]).flagStartPos, b)] ∧
      (LoadInput (recEnv true false (some "hello") []) ["+3"]).trace.filterMap
          Effect.openCall? = [] ∧
      Consistent (recEnv true false (some "hello") [])
        (LoadInput (recEnv true false (some "hello") []) ["+3"]).trace :=
  ⟨by decide, by decide,
    C4_single_buffer_without_paths (recEnv true false (some "hello") []) ["+3"]
      (fun a ha => by
        rw [List.mem_singleton.1 ha]
        exact ⟨['3'], none, by decide⟩)⟩

/-- C9: the tag is chosen once, before any buffer is built: the piped-output
tag exactly when standard output is not a terminal and the default tag exactly
when it is; every constructor call of `LoadInput`, from a file or from a
string, is given that tag, and the buffers returned are the buffers those calls
produced. -/
theorem C9_one_output_tag {β : Type} (env : Env β) (args : List String) :
    (outputTag env = .BTStdout ↔ env.stdoutIsTerminal = false) ∧
    (outputTag env = .BTDefault ↔ env.stdoutIsTerminal = true) ∧
    (LoadInput env args).buffers = (LoadInput env args).trace.filterMap Effect.buffer? ∧
    ∀ e ∈ (LoadInput env args).trace, ∀ bt, e.btype? = some bt → bt = outputTag env := by
  refine ⟨?_, ?_, LoadInput_buffers env args, ?_⟩
  · cases h : env.stdoutIsTerminal <;> simp [outputTag, h]
  · cases h : env.stdoutIsTerminal <;> simp [outputTag, h]
  · intro e he bt hbt
    exact (LoadInput_calls env args e he).2 bt hbt

/-- C9 with no argument, `hello` on standard input and standard output
redirected: one buffer, tagged for piped output, holding `hello`. -/
theorem C9_witness :
    (LoadInput (recEnv false false (some "hello") []) []).buffers
      = [⟨"", "hello", .BTStdout, ⟨-1, -1⟩⟩] ∧
    ∀ e ∈ (LoadInput (recEnv false false (some "hello") []) []).trace,
      ∀ bt, e.btype? = some bt → bt = .BTStdout :=
  ⟨by decide, (C9_one_output_tag (recEnv false false (some "hello") []) []).2.2.2⟩

/-- C10: on a token that matches the pattern and has a digit group on which
`strconv.Atoi` fails, one iteration of the argument loop only adds a warning
carrying that error: the token is not added to the file list, the retained
start position stays as it was, which is the sentinel (-1, -1) when no earlier
token was a directive whose groups convert, and the loop goes on with the
tokens that follow. -/
theorem C10_unconvertible_directive_is_skipped {β : Type} (st : ScanState β)
    (pre post : List String) (a : String) (L : List Char) (C : Option (List Char))
    (ha : IsDirective a L C)
    (hfail : (∃ err, Atoi (String.mk L) = .error err) ∨
      ∃ c err, C = some c ∧ Atoi (String.mk c) = .error err) :
    ∃ err,
      (Atoi (String.mk L) = .error err ∨ ∃ c, C = some c ∧ Atoi (String.mk c) = .error err) ∧
      scanStep st a = { st with trace := st.trace ++ [.TermMessage "" err] } ∧
      (scanStep st a).files = st.files ∧
      (scanStep st a).flagStartPos = st.flagStartPos ∧
      ((∀ b ∈ pre, ∀ L2 C2, IsDirective b L2 C2 → ¬ Converts L2 C2) →
        (scanStep (scanArgs β pre) a).flagStartPos = { X := -1, Y := -1 }) ∧
      scanArgs β (pre ++ a :: post) = post.foldl scanStep (scanStep (scanArgs β pre) a) := by
  have key : ∀ s : ScanState β, ∃ err,
      (Atoi (String.mk L) = .error err ∨
        ∃ c, C = some c ∧ Atoi (String.mk c) = .error err) ∧
      scanStep s a = { s with trace := s.trace ++ [.TermMessage "" err] } := by
    intro s
    rw [scanStep_directive s a L C ha]
    cases hL : Atoi (String.mk L) with
    | error e => exact ⟨e, Or.inl rfl, rfl⟩
    | ok line =>
      rcases hfail with ⟨e, he⟩ | ⟨c, e, hC, he⟩
      · rw [hL] at he; cases he
      · subst hC
        refine ⟨e, Or.inr ⟨c, rfl, he⟩, ?_⟩
        simp only [he]
  obtain ⟨err, herr, hstep⟩ := key st
  obtain ⟨err0, _, hstep0⟩ := key (scanArgs β pre)
  refine ⟨err, herr, hstep, by rw [hstep], by rw [hstep], ?_, ?_⟩
  · intro hpre
    rw [hstep0]
    exact scan_pos_unchanged pre (scanInit β) hpre
  · rw [scanArgs_append, List.foldl_cons]

/-- C10 at `+5 +99999999999999999999 a.txt`: the second token only adds a
warning; the position stays that of `+5` and `a.txt` is the one file path. -/
theorem C10_witness :
    (scanArgs RecBuf ["+5", "+99999999999999999999", "a.txt"]).flagStartPos = ⟨0, 4⟩ ∧
    (scanArgs RecBuf ["+5", "+99999999999999999999", "a.txt"]).files = ["a.txt"] ∧
    (scanArgs RecBuf ["+99999999999999999999", "a.txt"]).flagStartPos = ⟨-1, -1⟩ ∧
    ∃ err,
      (Atoi (String.mk "99999999999999999999".toList) = .error err ∨
        ∃ c, (none : Option (List Char)) = some c ∧ Atoi (String.mk c) = .error err) ∧
      scanStep (scanArgs RecBuf ["+5"]) "+99999999999999999999"
        = { scanArgs RecBuf ["+5"] with
            trace := (scanArgs RecBuf ["+5"]).trace ++ [.TermMessage "" err] } ∧
      (scanStep (scanArgs RecBuf ["+5"]) "+99999999999999999999").files
        = (scanArgs RecBuf ["+5"]).files ∧
      (scanStep (scanArgs RecBuf ["+5"]) "+99999999999999999999").flagStartPos
        = (scanArgs RecBuf ["+5"]).flagStartPos ∧
      ((∀ b ∈ ["+5"], ∀ L2 C2, IsDirective b L2 C2 → ¬ Converts L2 C2) →
        (scanStep (scanArgs RecBuf ["+5"]) "+99999999999999999999").flagStartPos
          = { X := -1, Y := -1 }) ∧
      scanArgs RecBuf (["+5"] ++ "+99999999999999999999" :: ["a.txt"])
        = ["a.txt"].foldl scanStep
            (scanStep (scanArgs RecBuf ["+5"]) "+99999999999999999999") :=
  ⟨by decide, by decide, by decide,
    C10_unconvertible_directive_is_skipped (scanArgs RecBuf ["+5"]) ["+5"] ["a.txt"]
      "+99999999999999999999" "99999999999999999999".toList none (by decide)
      (Or.inl ⟨.NumError "Atoi" "99999999999999999999" .ErrRange, by rfl⟩)⟩

/-! ## Lemmas on the router -/

theorem finiUnmodified_eq (bs : List Buffer) :
    finiUnmodified bs = (bs.filter fun b => !b.modified).map Act.Fini := by
  induction bs with
  | nil => rfl
  | cons b bs ih =>
    cases hb : b.modified <;> simp [finiUnmodified, hb, ih, List.filter_cons]

theorem backupAll_eq (env : Collab) (bs : List Buffer) :
    backupAll env bs = bs.map fun b => Act.Backup b (env.BackupFails b) := by
  induction bs with
  | nil => rfl
  | cons b bs ih => simp [backupAll, ih]

theorem drainDrawChan_eq (n : Nat) :
    drainDrawChan n = (0, List.replicate n Act.DrawRecv) := by
  induction n with
  | zero => rfl
  | succ n ih => simp [drainDrawChan, ih, List.replicate_succ]

/-- The render pass makes only display calls. -/
theorem displayCalls_acts (st : Editor) :
    ∀ a ∈ displayCalls st, a.fini? = none ∧ a.backup? = none ∧ a.isExit = false ∧
      a.isHandleEvent = false ∧ a.isDrawRecv = false := by
  intro a ha
  simp only [displayCalls, List.mem_append, List.mem_cons, List.mem_singleton, List.mem_map,
    List.not_mem_nil, or_false] at ha
  rcases ha with ((h | h | h) | ⟨p, _, h⟩) | (h | h | h) <;> subst h <;>
    simp [Act.fini?, Act.backup?, Act.isExit, Act.isHandleEvent, Act.isDrawRecv]

/-- The render pass shows the screen once. -/
theorem displayCalls_show (st : Editor) : ((displayCalls st).filter Act.isShow).length = 1 := by
  have h : (st.Panes.map Act.PaneDisplay).filter Act.isShow = [] := by
    rw [List.filter_eq_nil_iff]
    intro a ha
    obtain ⟨p, _, hp⟩ := List.mem_map.1 ha
    subst hp
    simp [Act.isShow]
  simp [displayCalls, List.filter_append, h, List.filter_cons, Act.isShow]

theorem displayCalls_drawRecv (st : Editor) : (displayCalls st).filter Act.isDrawRecv = [] := by
  rw [List.filter_eq_nil_iff]
  intro a ha
  simp [(displayCalls_acts st a ha).2.2.2.2]

theorem render_live (st : Editor) (h : st.ScreenSet = true) :
    render st = some (displayCalls st) := by
  simp [render, h]

/-- On a nil screen `DoEvent` panics in the render pass, whatever case of the
`select` would fire. -/
theorem DoEvent_nil_screen (env : Collab) (ready : Ready) (st : Editor)
    (h : st.ScreenSet = false) :
    DoEvent env ready st = { trace := [], outcome := .panicked nilScreenPanic } := by
  simp [DoEvent, render, h]

theorem count_fini_eq (tr : List Act) (b : Buffer) :
    tr.count (Act.Fini b) = (tr.filterMap Act.fini?).count b := by
  induction tr with
  | nil => rfl
  | cons a tr ih =>
    cases a <;> simp [List.count_cons, Act.fini?, List.filterMap_cons, ih]

theorem filterMap_backup_map (env : Collab) (bs : List Buffer) :
    ((bs.map fun x => Act.Backup x (env.BackupFails x)).filterMap Act.backup?) = bs := by
  induction bs with
  | nil => rfl
  | cons x xs ih => simp [Act.backup?, List.filterMap_cons, ih]

theorem filterMap_fini_map (bs : List Buffer) : (bs.map Act.Fini).filterMap Act.fini? = bs := by
  induction bs with
  | nil => rfl
  | cons x xs ih => simp [Act.fini?, List.filterMap_cons, ih]

theorem filterMap_fini_displayCalls (st : Editor) :
    (displayCalls st).filterMap Act.fini? = [] := by
  rw [List.filterMap_eq_nil_iff]
  intro a ha
  exact (displayCalls_acts st a ha).1

/-- What a shutdown branch leaves before the exit: the render pass, an
optional log line, one `Fini` per unmodified buffer and an optional screen
teardown. -/
theorem shutdown_prefix (st : Editor) (logs scr : List Act)
    (hlogs : ∀ a ∈ logs, a.fini? = none ∧ a.isExit = false)
    (hscr : ∀ a ∈ scr, a.fini? = none ∧ a.isExit = false) :
    (displayCalls st ++ logs ++ finiUnmodified st.OpenBuffers ++ scr).filterMap Act.fini?
        = st.OpenBuffers.filter (fun b => !b.modified) ∧
    ∀ a ∈ displayCalls st ++ logs ++ finiUnmodified st.OpenBuffers ++ scr,
      a.isExit = false := by
  have h1 : logs.filterMap Act.fini? = [] := by
    rw [List.filterMap_eq_nil_iff]; exact fun a ha => (hlogs a ha).1
  have h2 : scr.filterMap Act.fini? = [] := by
    rw [List.filterMap_eq_nil_iff]; exact fun a ha => (hscr a ha).1
  constructor
  · simp only [List.filterMap_append, filterMap_fini_displayCalls, h1, h2, finiUnmodified_eq,
      filterMap_fini_map, List.nil_append, List.append_nil]
  · intro a ha
    simp only [List.mem_append] at ha
    rcases ha with ((ha | ha) | ha) | ha
    · exact (displayCalls_acts st a ha).2.2.1
    · exact (hlogs a ha).2
    · rw [finiUnmodified_eq] at ha
      obtain ⟨b, _, hb⟩ := List.mem_map.1 ha
      subst hb
      rfl
    · exact (hscr a ha).2

theorem screenFini_acts (c : Bool) :
    ∀ a ∈ (if c then [Act.ScreenFini] else []),
      a.fini? = none ∧ a.backup? = none ∧ a.isExit = false := by
  intro a ha
  cases c
  · simp at ha
  · simp at ha
    subst ha
    simp [Act.fini?, Act.backup?, Act.isExit]

/-- The iteration of `DoEvent` that receives a redraw request on a live
screen. -/
theorem DoEvent_draw (env : Collab) (st : Editor) (n : Nat) (hs : st.ScreenSet = true)
    (hn : st.DrawChan = n + 1) :
    DoEvent env .DrawChan st =
      { trace := displayCalls st ++ List.replicate (n + 1) Act.DrawRecv ++
          [.Lock,
           if st.HasPrompt then .InfoBarHandleEvent none else .TabsHandleEvent none,
           .Unlock]
        outcome := .returned
          ((if st.HasPrompt then env.InfoBarHandleEvent none else env.TabsHandleEvent none)
            { st with DrawChan := 0 }) } := by
  cases hp : st.HasPrompt <;>
    simp [DoEvent, render, hs, afterSelect, hp, hn, drainDrawChan_eq, List.replicate_succ]

/-- With the queue empty and the screen live, the redraw case cannot fire: the
iteration renders and waits. -/
theorem DoEvent_draw_empty (env : Collab) (st : Editor) (hs : st.ScreenSet = true)
    (h : st.DrawChan = 0) :
    DoEvent env .DrawChan st = { trace := displayCalls st, outcome := .blocked } := by
  simp [DoEvent, render, hs, h]

/-! ## The router and the crash handler: claims -/

/-- C5: when the screen is live, so that the render pass goes through, and the
`select` of `DoEvent` receives a hangup signal, a terminate signal, or an error
event whose cause is `io.EOF`, the iteration ends in `os.Exit(0)`; before the
exit, and with no other exit, `Fini` is called on the registry's buffers whose
`Modified()` is false, one call per registry entry and in registry order, and
on no buffer whose `Modified()` is true; when the registry holds no handle
twice, every unmodified buffer is finalized exactly once. -/
theorem C5_clean_shutdown_finalizes_unmodified (env : Collab) (st : Editor) (ready : Ready)
    (hs : st.ScreenSet = true)
    (h : ready = .sighup ∨ ready = .sigterm ∨ ready = .Events (.EventError .EOF)) :
    ∃ pre, DoEvent env ready st = { trace := pre ++ [.Exit 0], outcome := .exited 0 } ∧
      pre.filterMap Act.fini? = st.OpenBuffers.filter (fun b => !b.modified) ∧
      (∀ a ∈ pre, a.isExit = false) ∧
      (∀ b, b.modified = true → Act.Fini b ∉ pre) ∧
      (st.OpenBuffers.Nodup →
        ∀ b ∈ st.OpenBuffers, b.modified = false → pre.count (.Fini b) = 1) := by
  have key : ∀ pre : List Act,
      pre.filterMap Act.fini? = st.OpenBuffers.filter (fun b => !b.modified) →
      (∀ b, b.modified = true → Act.Fini b ∉ pre) ∧
      (st.OpenBuffers.Nodup →
        ∀ b ∈ st.OpenBuffers, b.modified = false → pre.count (.Fini b) = 1) := by
    intro pre hpre
    constructor
    · intro b hb hmem
      have : b ∈ pre.filterMap Act.fini? := List.mem_filterMap.2 ⟨_, hmem, rfl⟩
      rw [hpre, List.mem_filter] at this
      simp [hb] at this
    · intro hnd b hb hm
      rw [count_fini_eq, hpre]
      apply List.count_eq_one_of_mem (hnd.filter _)
      rw [List.mem_filter]
      exact ⟨hb, by simp [hm]⟩
  have hnil : ∀ a ∈ ([] : List Act), a.fini? = none ∧ a.isExit = false := by
    intro a ha; cases ha
  have hscr : ∀ a ∈ [Act.ScreenFini], a.fini? = none ∧ a.isExit = false :=
    fun a ha => ⟨(screenFini_acts true a ha).1, (screenFini_acts true a ha).2.2⟩
  rcases h with h | h | h
  · subst h
    have hp := shutdown_prefix st [] [] hnil hnil
    simp only [List.append_nil] at hp
    exact ⟨displayCalls st ++ finiUnmodified st.OpenBuffers, by simp [DoEvent, render, hs],
      hp.1, hp.2, key _ hp.1⟩
  · subst h
    have hp := shutdown_prefix st [] _ hnil hscr
    simp only [List.append_nil] at hp
    exact ⟨displayCalls st ++ finiUnmodified st.OpenBuffers ++ [Act.ScreenFini],
      by simp [DoEvent, render, hs], hp.1, hp.2, key _ hp.1⟩
  · subst h
    have hlog : ∀ a ∈ [Act.Log Cause.EOF], a.fini? = none ∧ a.isExit = false := by
      intro a ha
      simp only [List.mem_singleton] at ha
      subst ha
      exact ⟨rfl, rfl⟩
    have hp := shutdown_prefix st [Act.Log Cause.EOF] _ hlog hscr
    exact ⟨displayCalls st ++ [Act.Log Cause.EOF] ++ finiUnmodified st.OpenBuffers ++
        [Act.ScreenFini], by simp [DoEvent, render, hs, afterSelect],
      hp.1, hp.2, key _ hp.1⟩

/-- C5 on a terminate signal with buffers 1 and 3 unmodified and buffer 2
modified: `Fini` on 1, then on 3, then the screen teardown and `os.Exit(0)`. -/
theorem C5_witness :
    demoEditor.ScreenSet = true ∧
    DoEvent demoCollab .sigterm demoEditor
      = { trace := displayCalls demoEditor ++
            [.Fini ⟨1, false⟩, .Fini ⟨3, false⟩, .ScreenFini, .Exit 0]
          outcome := .exited 0 } ∧
    ∃ pre, DoEvent demoCollab .sigterm demoEditor
        = { trace := pre ++ [.Exit 0], outcome := .exited 0 } ∧
      pre.filterMap Act.fini? = demoEditor.OpenBuffers.filter (fun b => !b.modified) ∧
      (∀ a ∈ pre, a.isExit = false) ∧
      (∀ b, b.modified = true → Act.Fini b ∉ pre) ∧
      (demoEditor.OpenBuffers.Nodup →
        ∀ b ∈ demoEditor.OpenBuffers, b.modified = false → pre.count (.Fini b) = 1) :=
  ⟨rfl, by decide,
    C5_clean_shutdown_finalizes_unmodified demoCollab demoEditor .sigterm rfl
      (Or.inr (Or.inl rfl))⟩

/-- C6: when the deferred function of `app.Action` recovers a panic, it ends
in `os.Exit(1)`; before the exit, and with no other exit, `Backup` is called
on every buffer of the registry, one call per registry entry and in registry
order, whatever the buffers' modified flags and whichever backups fail; when
the registry holds no handle twice, every buffer is backed up exactly once. -/
theorem C6_crash_backs_up_every_buffer (env : Collab) (st : Editor) (v : PanicValue) :
    ∃ pre, deferredRecover env (some v) st
        = { trace := pre ++ [.Exit 1], outcome := .exited 1 } ∧
      pre.filterMap Act.backup? = st.OpenBuffers ∧
      (∀ a ∈ pre, a.isExit = false) ∧
      (∀ b ∈ st.OpenBuffers, Act.Backup b (env.BackupFails b) ∈ pre) ∧
      (st.OpenBuffers.Nodup →
        ∀ b ∈ st.OpenBuffers, (pre.filterMap Act.backup?).count b = 1) := by
  refine ⟨(if st.ScreenSet then [Act.ScreenFini] else []) ++ [Act.Println v] ++
      backupAll env st.OpenBuffers, rfl, ?_, ?_, ?_, ?_⟩
  · have h1 : (if st.ScreenSet then [Act.ScreenFini] else []).filterMap Act.backup? = [] := by
      rw [List.filterMap_eq_nil_iff]
      exact fun a ha => (screenFini_acts _ a ha).2.1
    simp only [List.filterMap_append, h1, backupAll_eq, filterMap_backup_map, List.nil_append]
    simp [Act.backup?]
  · intro a ha
    simp only [List.mem_append, List.mem_singleton] at ha
    rcases ha with (ha | ha) | ha
    · exact (screenFini_acts _ a ha).2.2
    · subst ha; rfl
    · rw [backupAll_eq] at ha
      obtain ⟨b, _, hb⟩ := List.mem_map.1 ha
      subst hb
      rfl
  · intro b hb
    rw [backupAll_eq]
    exact List.mem_append_right _ (List.mem_map.2 ⟨b, hb, rfl⟩)
  · intro hnd b hb
    have h1 : (if st.ScreenSet then [Act.ScreenFini] else []).filterMap Act.backup? = [] := by
      rw [List.filterMap_eq_nil_iff]
      exact fun a ha => (screenFini_acts _ a ha).2.1
    have h2 : ((if st.ScreenSet then [Act.ScreenFini] else []) ++ [Act.Println v] ++
        backupAll env st.OpenBuffers).filterMap Act.backup? = st.OpenBuffers := by
      simp only [List.filterMap_append, h1, backupAll_eq, filterMap_backup_map,
        List.nil_append]
      simp [Act.backup?]
    rw [h2]
    exact List.count_eq_one_of_mem hnd hb

/-- C6 with three buffers, the second one modified and failing to back up:
`Backup` on 1, 2 and 3, then `os.Exit(1)`. -/
theorem C6_witness :
    deferredRecover demoCollab (some (.other "boom")) demoEditor
      = { trace := [.ScreenFini, .Println (.other "boom"), .Backup ⟨1, false⟩ false,
            .Backup ⟨2, true⟩ true, .Backup ⟨3, false⟩ false, .Exit 1]
          outcome := .exited 1 } ∧
    ∃ pre, deferredRecover demoCollab (some (.other "boom")) demoEditor
        = { trace := pre ++ [.Exit 1], outcome := .exited 1 } ∧
      pre.filterMap Act.backup? = demoEditor.OpenBuffers ∧
      (∀ a ∈ pre, a.isExit = false) ∧
      (∀ b ∈ demoEditor.OpenBuffers, Act.Backup b (demoCollab.BackupFails b) ∈ pre) ∧
      (demoEditor.OpenBuffers.Nodup →
        ∀ b ∈ demoEditor.OpenBuffers, (pre.filterMap Act.backup?).count b = 1) :=
  ⟨by decide, C6_crash_backs_up_every_buffer demoCollab demoEditor (.other "boom")⟩

/-- C7, as stated, fails: with a live screen, three redraw requests queued and
no prompt shown, the iteration that receives a redraw request calls the tab
set's `HandleEvent` with the nil event, and the handler changes the editor
state (here it opens a prompt); the same happens on a terminal-close
notification. -/
theorem C7_counterexample :
    DoEvent demoCollab .DrawChan demoEditor
      = { trace := displayCalls demoEditor ++
            [.DrawRecv, .DrawRecv, .DrawRecv, .Lock, .TabsHandleEvent none, .Unlock]
          outcome := .returned { demoEditor with HasPrompt := true, DrawChan := 0 } } ∧
    DoEvent demoCollab .CloseTerms demoEditor
      = { trace := displayCalls demoEditor ++ [.Lock, .TabsHandleEvent none, .Unlock]
          outcome := .returned { demoEditor with HasPrompt := true } } ∧
    ¬ (∀ ready, ready = Ready.DrawChan ∨ ready = Ready.CloseTerms →
        (∀ a ∈ (DoEvent demoCollab ready demoEditor).trace, a.isHandleEvent = false) ∧
        ∃ st2, (DoEvent demoCollab ready demoEditor).outcome = .returned st2 ∧
          { st2 with DrawChan := demoEditor.DrawChan } = demoEditor) := by
  refine ⟨by decide, by decide, ?_⟩
  intro h
  have h2 := (h .CloseTerms (Or.inr rfl)).1 (.TabsHandleEvent none) (by decide)
  exact absurd h2 (by decide)

/-- C7 (amended): with the screen live, so that the render pass goes through,
an iteration of `DoEvent` that receives a terminal-close notification, or a
redraw request, runs no job callback, saves, finalizes and logs nothing and
does not exit; on a redraw request it receives every queued request; then,
under the lock, it calls `HandleEvent` once with the nil event, on the prompt
when one is shown and on the tab set otherwise, and returns with the state
that call leaves. -/
theorem C7_redraw_and_close_hand_over_nil_event (env : Collab) (st : Editor) (ready : Ready)
    (hs : st.ScreenSet = true)
    (h : ready = .CloseTerms ∨ (ready = .DrawChan ∧ 0 < st.DrawChan)) :
    DoEvent env ready st =
      { trace := displayCalls st ++
          (if ready = .DrawChan then List.replicate st.DrawChan Act.DrawRecv else []) ++
          [.Lock,
           if st.HasPrompt then .InfoBarHandleEvent none else .TabsHandleEvent none,
           .Unlock]
        outcome := .returned
          ((if st.HasPrompt then env.InfoBarHandleEvent none else env.TabsHandleEvent none)
            (if ready = .DrawChan then { st with DrawChan := 0 } else st)) } := by
  rcases h with h | ⟨h, hpos⟩
  · subst h
    cases hp : st.HasPrompt <;> simp [DoEvent, render, hs, afterSelect, hp]
  · subst h
    obtain ⟨n, hn⟩ : ∃ n, st.DrawChan = n + 1 := ⟨st.DrawChan - 1, by omega⟩
    cases hp : st.HasPrompt <;>
      simp [DoEvent, render, hs, afterSelect, hp, hn, drainDrawChan_eq, List.replicate_succ]

/-- C7 (amended) with three redraw requests queued and no prompt: three
receives, then the tab set's `HandleEvent` with the nil event. -/
theorem C7_witness :
    demoEditor.ScreenSet = true ∧ 0 < demoEditor.DrawChan ∧
    DoEvent demoCollab .DrawChan demoEditor =
      { trace := displayCalls demoEditor ++
          (if Ready.DrawChan = .DrawChan then List.replicate demoEditor.DrawChan Act.DrawRecv
            else []) ++
          [.Lock,
           if demoEditor.HasPrompt then .InfoBarHandleEvent none else .TabsHandleEvent none,
           .Unlock]
        outcome := .returned
          ((if demoEditor.HasPrompt then demoCollab.InfoBarHandleEvent none
              else demoCollab.TabsHandleEvent none)
            (if Ready.DrawChan = .DrawChan then { demoEditor with DrawChan := 0 }
              else demoEditor)) } :=
  ⟨rfl, by decide,
    C7_redraw_and_close_hand_over_nil_event demoCollab demoEditor .DrawChan rfl
      (Or.inr ⟨rfl, by decide⟩)⟩

/-- C8: with the screen live and `K ≥ 1` redraw requests queued, when the one
`HandleEvent` call of the iteration leaves the queue as the drain loop left it,
the iteration of `DoEvent` that receives a redraw request receives all `K` of
them and returns with the queue empty.  If the screen is still live, the redraw
case cannot fire in the next iteration, which renders once and waits: however
often the redraw case is asked for again, the run makes two render passes, the
one before the burst was seen and one after it, and `K` receives. -/
theorem C8_redraw_burst_is_coalesced (env : Collab) (st : Editor) (K : Nat)
    (hK : 1 ≤ K) (hq : st.DrawChan = K) (hs : st.ScreenSet = true)
    (hquiet :
      ((if st.HasPrompt then env.InfoBarHandleEvent none else env.TabsHandleEvent none)
          { st with DrawChan := (drainDrawChan (K - 1)).1 }).DrawChan
        = (drainDrawChan (K - 1)).1) :
    ∃ st2, (DoEvent env .DrawChan st).outcome = .returned st2 ∧
      st2.DrawChan = 0 ∧
      ((DoEvent env .DrawChan st).trace.filter Act.isDrawRecv).length = K ∧
      (st2.ScreenSet = true →
        DoEvent env .DrawChan st2 = { trace := displayCalls st2, outcome := .blocked } ∧
        ∀ m,
          runRouter env (List.replicate (m + 2) .DrawChan) st
            = { trace := (DoEvent env .DrawChan st).trace ++ displayCalls st2
                outcome := .blocked } ∧
          ((runRouter env (List.replicate (m + 2) .DrawChan) st).trace.filter
            Act.isShow).length = 2 ∧
          ((runRouter env (List.replicate (m + 2) .DrawChan) st).trace.filter
            Act.isDrawRecv).length = K) := by
  obtain ⟨k, hk⟩ : ∃ k, K = k + 1 := ⟨K - 1, by omega⟩
  subst hk
  have hstep := DoEvent_draw env st k hs hq
  simp only [Nat.add_sub_cancel, drainDrawChan_eq] at hquiet
  have hrecv : ((DoEvent env .DrawChan st).trace.filter Act.isDrawRecv).length = k + 1 := by
    have h1 : (List.replicate (k + 1) Act.DrawRecv).filter Act.isDrawRecv
        = List.replicate (k + 1) Act.DrawRecv := by
      rw [List.filter_eq_self]
      intro a ha
      rw [List.eq_of_mem_replicate ha]
      rfl
    rw [hstep]
    simp only [List.filter_append, displayCalls_drawRecv, h1, List.nil_append,
      List.length_append, List.length_replicate]
    cases st.HasPrompt <;> simp [List.filter_cons, Act.isDrawRecv]
  have hshow : ((DoEvent env .DrawChan st).trace.filter Act.isShow).length = 1 := by
    have h1 : (List.replicate (k + 1) Act.DrawRecv).filter Act.isShow = [] := by
      rw [List.filter_eq_nil_iff]
      intro a ha
      rw [List.eq_of_mem_replicate ha]
      simp [Act.isShow]
    rw [hstep]
    simp only [List.filter_append, h1, List.append_nil, List.length_append,
      displayCalls_show]
    cases st.HasPrompt <;> simp [List.filter_cons, Act.isShow]
  refine ⟨_, by rw [hstep], hquiet, hrecv, ?_⟩
  intro hs2
  have hblocked := DoEvent_draw_empty env _ hs2 hquiet
  refine ⟨hblocked, ?_⟩
  intro m
  have hrun : runRouter env (List.replicate (m + 2) .DrawChan) st
      = { trace := (DoEvent env .DrawChan st).trace ++
            displayCalls ((if st.HasPrompt then env.InfoBarHandleEvent none
              else env.TabsHandleEvent none) { st with DrawChan := 0 })
          outcome := .blocked } := by
    simp only [List.replicate_succ, runRouter, hstep, hblocked]
  refine ⟨hrun, ?_, ?_⟩
  · rw [hrun]
    simp only [List.filter_append, List.length_append, hshow, displayCalls_show]
  · rw [hrun]
    simp only [List.filter_append, List.length_append, hrecv, displayCalls_drawRecv,
      List.length_nil, Nat.add_zero]

/-- C8 with a burst of three requests: the iteration receives the three of
them and leaves the queue empty; the next iteration renders and waits. -/
theorem C8_witness :
    (1 ≤ 3 ∧ demoEditor.DrawChan = 3 ∧ demoEditor.ScreenSet = true) ∧
    runRouter demoCollab [.DrawChan, .DrawChan, .DrawChan] demoEditor
      = { trace := displayCalls demoEditor ++
            [.DrawRecv, .DrawRecv, .DrawRecv, .Lock, .TabsHandleEvent none, .Unlock] ++
            displayCalls demoEditor
          outcome := .blocked } ∧
    ∃ st2, (DoEvent demoCollab .DrawChan demoEditor).outcome = .returned st2 ∧
      st2.DrawChan = 0 ∧
      ((DoEvent demoCollab .DrawChan demoEditor).trace.filter Act.isDrawRecv).length = 3 ∧
      (st2.ScreenSet = true →
        DoEvent demoCollab .DrawChan st2
          = { trace := displayCalls st2, outcome := .blocked } ∧
        ∀ m,
          runRouter demoCollab (List.replicate (m + 2) .DrawChan) demoEditor
            = { trace := (DoEvent demoCollab .DrawChan demoEditor).trace ++ displayCalls st2
                outcome := .blocked } ∧
          ((runRouter demoCollab (List.replicate (m + 2) .DrawChan) demoEditor).trace.filter
            Act.isShow).length = 2 ∧
          ((runRouter demoCollab (List.replicate (m + 2) .DrawChan) demoEditor).trace.filter
            Act.isDrawRecv).length = 3) :=
  ⟨⟨by decide, rfl, rfl⟩, by decide,
    C8_redraw_burst_is_coalesced demoCollab demoEditor 3 (by decide) rfl rfl rfl⟩

end Micro
